import Mathlib

/-!
Verification of the Salis-2.0 artificial-life simulator core (C sources under
`src/`) against its natural-language specification.  The C code is shallowly
embedded: machine integers (`uint32`, `uint8`) become `Nat` with explicit
`% 2^32` wherever C wrap-around matters, global module state becomes explicit
state records, and C loops become fueled recursions (fuel chosen so that it
never runs out under the loop's documented preconditions).
-/

namespace Salis

/-- `2^32`, the modulus of C `uint32` arithmetic. -/
def u32Mod : Nat := 4294967296

/-- C `uint32` decrement: `x - 1` wraps to `2^32 - 1` at zero. -/
def u32dec (x : Nat) : Nat := (x + (u32Mod - 1)) % u32Mod

/-! ## Instruction set (`src/include/instset.h`, `src/src/instset.c`)

The 32 opcode ordinals, as laid down by the enum in `instset.h`.  (The tree
also ships a `process.c` that names opcodes `SHFL`/`SHFR` for the two
one-register shift operations; those names are absent from this `instset.h`,
which ends in `EATB`/`EATF`.  We bind `SHFL := 30` and `SHFR := 31`, the only
two ordinals left for them; no claim below depends on the semantics of
ordinals 30 and 31.) -/

def NOP0 : Nat := 0
def NOP1 : Nat := 1
def MODA : Nat := 2
def MODB : Nat := 3
def MODC : Nat := 4
def MODD : Nat := 5
def JMPB : Nat := 6
def JMPF : Nat := 7
def ADRB : Nat := 8
def ADRF : Nat := 9
def MALB : Nat := 10
def MALF : Nat := 11
def SWAP : Nat := 12
def SPLT : Nat := 13
def INCN : Nat := 14
def DECN : Nat := 15
def ZERO : Nat := 16
def UNIT : Nat := 17
def NOTN : Nat := 18
def IFNZ : Nat := 19
def SUMN : Nat := 20
def SUBN : Nat := 21
def MULN : Nat := 22
def DIVN : Nat := 23
def LOAD : Nat := 24
def WRTE : Nat := 25
def SEND : Nat := 26
def RECV : Nat := 27
def PSHN : Nat := 28
def POPN : Nat := 29
def SHFL : Nat := 30
def SHFR : Nat := 31

/-- `INST_COUNT` from `instset.h`. -/
def INST_COUNT : Nat := 32

/-- `sal_is_inst` (`instset.c`): a word holds a valid instruction iff `< 32`. -/
def sal_is_inst (word : Nat) : Bool := word < INST_COUNT

/-- `is_in_between` (`instset.c`). -/
def is_in_between (inst low hi : Nat) : Bool := low ≤ inst && inst ≤ hi

/-- `sal_is_template` (`instset.c`): NOP0 or NOP1. -/
def sal_is_template (inst : Nat) : Bool := is_in_between inst NOP0 NOP1

/-- `sal_is_mod` (`instset.c`): MODA .. MODD. -/
def sal_is_mod (inst : Nat) : Bool := is_in_between inst MODA MODD

/-! ## Evolver PRNG (`src/src/evolver.c`)

`generate_random_number` is a 128-bit xorshift.  The state is the four
`uint32` words `s0..s3`; each draw returns the new `s0`. -/

structure EvoState where
  s0 : Nat
  s1 : Nat
  s2 : Nat
  s3 : Nat
  deriving Repr, DecidableEq

/-- A `uint32` left shift: shift then wrap at `2^32`. -/
def u32shl (x k : Nat) : Nat := (x <<< k) % u32Mod

/-- `generate_random_number` (`evolver.c`, lines 88-109), transcribed with the
same `tmp1`/`tmp2` temporaries the C function uses.  Returns the drawn number
together with the new state. -/
def generate_random_number (s : EvoState) : Nat × EvoState :=
  let tmp2 := s.s3
  let tmp2 := tmp2 ^^^ u32shl tmp2 11
  let tmp2 := tmp2 ^^^ (tmp2 >>> 8)
  let s3 := s.s2
  let s2 := s.s1
  let tmp1 := s.s0
  let s1 := tmp1
  let tmp2 := tmp2 ^^^ tmp1
  let tmp2 := tmp2 ^^^ (tmp1 >>> 19)
  let s0 := tmp2
  (tmp2, ⟨s0, s1, s2, s3⟩)

/-- The xorshift recurrence exactly as the specification words it:
`t = s3; t ^= t << 11; t ^= t >> 8;` and the new state is
`(t ^ s0 ^ (s0 >> 19), s0, s1, s2)`, the draw returning the new `s0`. -/
def xorshift_spec_step (s : EvoState) : Nat × EvoState :=
  let t := s.s3
  let t := t ^^^ u32shl t 11
  let t := t ^^^ (t >>> 8)
  let t := t ^^^ s.s0 ^^^ (s.s0 >>> 19)
  (t, ⟨t, s.s0, s.s1, s.s2⟩)

/-- The output stream of the PRNG from a given seed state: element `n` is the
`n`-th draw. -/
def prng_stream (s : EvoState) : Nat → Nat
  | 0 => (generate_random_number s).1
  | n + 1 => prng_stream (generate_random_number s).2 n

/-! ## Memory snapshot (`src/src/memory.c`, `_sal_mem_save_into` /
`_sal_mem_load_from`)

The snapshot file is modelled as a list of numeric items in write order.  The
first seven items and the 32 counters are `u32` words, the trailing `size`
items are the raw `u8` memory bytes; widths do not matter for the field
sequence, so one list suffices. -/

/-- The state of the memory module, exactly the globals that
`_sal_mem_save_into` serializes. -/
structure MemModule where
  is_init : Nat
  order : Nat
  size : Nat
  ip_count : Nat
  block_start_count : Nat
  allocated_count : Nat
  capacity : Nat
  inst_counter : List Nat
  memory : List Nat
  deriving Repr, DecidableEq

/-- `_sal_mem_save_into` (`memory.c`, lines 76-91): the exact write sequence
`is_init, order, size, ip_count, block_start_count, allocated_count,
capacity, inst_counter[32], memory[size]`. -/
def sal_mem_save_into (m : MemModule) : List Nat :=
  [m.is_init, m.order, m.size, m.ip_count, m.block_start_count,
    m.allocated_count, m.capacity] ++ m.inst_counter ++ m.memory

/-- `_sal_mem_load_from` (`memory.c`, lines 57-74): reads the same sequence
back, sizing the byte read from the `size` field it just read.  A file too
short for the reads is an I/O failure, modelled as `none`. -/
def sal_mem_load_from (file : List Nat) : Option MemModule :=
  match file with
  | is_init :: order :: size :: ipc :: bsc :: alc :: cap :: rest =>
    if 32 + size ≤ rest.length then
      some ⟨is_init, order, size, ipc, bsc, alc, cap,
        rest.take 32, (rest.drop 32).take size⟩
    else
      none
  | _ => none

/-- The field sequence the specification claims for the memory section:
`is_init, order, size, allocated, capacity, inst_counter[32], bytes[size]`
and nothing else.  (Stated from the spec's words, for comparison with
`sal_mem_save_into`.) -/
def mem_save_claimed_sequence (m : MemModule) : List Nat :=
  [m.is_init, m.order, m.size, m.allocated_count, m.capacity]
  ++ m.inst_counter ++ m.memory

/-! ## Simulator state

One record holds the globals of `memory.c` (size, capacity, per-cell
instruction, ALLOCATED flag, `g_allocated_count`, `g_inst_counter`) and of
`process.c` (`g_count`, `g_capacity`, `g_first`, `g_last`, `g_procs`),
plus the channel of `common.c` as a sent-byte log and a receive queue.
The IP / BLOCK_START flag bits of `memory.c` are not touched by any code
path a claim exercises and are omitted. -/

/-- `struct Process` (`process.h`): the `stack` list always has length 8. -/
structure Proc where
  mb1a : Nat
  mb1s : Nat
  mb2a : Nat
  mb2s : Nat
  ip : Nat
  sp : Nat
  rax : Nat
  rbx : Nat
  rcx : Nat
  rdx : Nat
  stack : List Nat
  deriving Repr, DecidableEq

/-- The all-zero process record (`calloc` / `memset` state). -/
def zeroProc : Proc := ⟨0, 0, 0, 0, 0, 0, 0, 0, 0, 0, List.replicate 8 0⟩

structure Sim where
  memSize : Nat
  memCap : Nat
  inst : Nat → Nat
  alloc : Nat → Bool
  allocCount : Nat
  instCount : Nat → Nat
  count : Nat
  qcap : Nat
  first : Nat
  last : Nat
  procs : Nat → Proc
  sent : List Nat
  recvq : List Nat

/-- `UINT32_MAX`. -/
def UINT32_MAX : Nat := u32Mod - 1

/-- `sal_mem_is_address_valid` (`memory.c`). -/
def sal_mem_is_address_valid (s : Sim) (address : Nat) : Bool :=
  address < s.memSize

/-- `sal_mem_get_inst` (`memory.c`): the stored 5-bit opcode. -/
def sal_mem_get_inst (s : Sim) (address : Nat) : Nat := s.inst address

/-- `sal_mem_is_allocated` (`memory.c`). -/
def sal_mem_is_allocated (s : Sim) (address : Nat) : Bool := s.alloc address

/-- `sal_mem_set_inst` (`memory.c`): decrement the old opcode's counter,
overwrite the instruction bits, increment the new counter. -/
def sal_mem_set_inst (s : Sim) (address inst : Nat) : Sim :=
  let old := s.inst address
  { s with
    inst := fun x => if x = address then inst else s.inst x,
    instCount := fun i =>
      if i = inst then
        (if i = old then s.instCount i else s.instCount i + 1)
      else if i = old then s.instCount i - 1
      else s.instCount i }

/-- `_sal_mem_set_allocated` (`memory.c`): idempotent; bumps
`g_allocated_count` only on an actual change. -/
def sal_mem_set_allocated (s : Sim) (address : Nat) : Sim :=
  if s.alloc address then s
  else { s with
    alloc := fun x => if x = address then true else s.alloc x,
    allocCount := s.allocCount + 1 }

/-- `_sal_mem_unset_allocated` (`memory.c`). -/
def sal_mem_unset_allocated (s : Sim) (address : Nat) : Sim :=
  if s.alloc address then
    { s with
      alloc := fun x => if x = address then false else s.alloc x,
      allocCount := s.allocCount - 1 }
  else s

/-! ## Reaper queue (`src/src/process.c`) -/

/-- `sal_proc_is_free` (`process.c`): a slot is free iff `mb1s == 0`. -/
def sal_proc_is_free (s : Sim) (proc_id : Nat) : Bool :=
  (s.procs proc_id).mb1s = 0

/-- Overwrite one slot of the process array. -/
def set_proc (s : Sim) (pidx : Nat) (p : Proc) : Sim :=
  { s with procs := fun i => if i = pidx then p else s.procs i }

/-- The forward-copy loop of `realloc_queue` (`process.c`, lines 191-201):
starting at `fwrd_idx := queue_lock`, copy `oldp (fwrd_idx % ocap)` into the
new queue at index `fwrd_idx`, stopping once the old index equals `glast`.
Returns the new queue together with the final `fwrd_idx` (the new `g_last`).
The fuel bounds the iteration count; the loop body runs at most `ocap` times
because the old queue holds `g_last` within `ocap` slots of the lock. -/
def fwd_copy (oldp : Nat → Proc) (ocap glast : Nat) :
    Nat → Nat → (Nat → Proc) → ((Nat → Proc) × Nat)
  | 0, fwrd_idx, nq => (nq, fwrd_idx)
  | fuel + 1, fwrd_idx, nq =>
    let old_idx := fwrd_idx % ocap
    let nq' := fun i => if i = fwrd_idx then oldp old_idx else nq i
    if old_idx = glast then (nq', fwrd_idx)
    else fwd_copy oldp ocap glast fuel (fwrd_idx + 1) nq'

/-- The backward-copy loop of `realloc_queue` (`process.c`, lines 208-221):
starting at `back_idx := (queue_lock - 1) % new_capacity`, copy
`oldp (back_idx % ocap)` into the new queue at index `back_idx`, stopping once
the old index equals `gfirst`, else decrementing `back_idx` with `uint32`
wrap and reducing it `% ncap`. Returns the new queue and the final
`back_idx` (the new `g_first`). -/
def back_copy (oldp : Nat → Proc) (ocap ncap gfirst : Nat) :
    Nat → Nat → (Nat → Proc) → ((Nat → Proc) × Nat)
  | 0, back_idx, nq => (nq, back_idx)
  | fuel + 1, back_idx, nq =>
    let old_idx := back_idx % ocap
    let nq' := fun i => if i = back_idx then oldp old_idx else nq i
    if old_idx = gfirst then (nq', back_idx)
    else back_copy oldp ocap ncap gfirst fuel (u32dec back_idx % ncap) nq'

/-- `realloc_queue` (`process.c`, lines 164-229): double the queue capacity,
copy the live span into the new queue so that the `queue_lock` slot keeps its
index, and update `g_first`/`g_last` to the positions where the copies
stopped.  The backward loop only runs when `queue_lock ≠ g_first`. -/
def realloc_queue (s : Sim) (queue_lock : Nat) : Sim :=
  let new_capacity := s.qcap * 2
  let back_idx := u32dec queue_lock % new_capacity
  let fwd := fwd_copy s.procs s.qcap s.last s.qcap queue_lock
    (fun _ => zeroProc)
  if queue_lock ≠ s.first then
    let bck := back_copy s.procs s.qcap new_capacity s.first s.qcap
      back_idx fwd.1
    { s with
      qcap := new_capacity,
      procs := bck.1,
      last := fwd.2,
      first := bck.2 }
  else
    { s with
      qcap := new_capacity,
      procs := fwd.1,
      last := fwd.2 }

/-- `get_new_proc_from_queue` (`process.c`, lines 231-257): reallocate when
full, bump `g_count`, and hand out slot 0 (resetting `first`/`last`) for the
very first process, else the slot after `g_last` modulo capacity.  Returns
the updated state and the granted slot index. -/
def get_new_proc_from_queue (s : Sim) (queue_lock : Nat) : Sim × Nat :=
  let s := if s.count = s.qcap then realloc_queue s queue_lock else s
  let s := { s with count := s.count + 1 }
  if s.count = 1 then
    ({ s with first := 0, last := 0 }, 0)
  else
    let l := (s.last + 1) % u32Mod % s.qcap
    ({ s with last := l }, l)

/-! ## Instruction execution (`src/src/process.c`) -/

/-- Read register `r` (0 = rax .. 3 = rdx) of a process. -/
def read_reg (p : Proc) : Nat → Nat
  | 0 => p.rax
  | 1 => p.rbx
  | 2 => p.rcx
  | _ => p.rdx

/-- Write register `r` (0 = rax .. 3 = rdx) of a process. -/
def write_reg (p : Proc) (r v : Nat) : Proc :=
  match r with
  | 0 => { p with rax := v }
  | 1 => { p with rbx := v }
  | 2 => { p with rcx := v }
  | _ => { p with rdx := v }

/-- `on_fault` (`process.c`, lines 469-478): faults currently do nothing. -/
def on_fault (s : Sim) (_pidx : Nat) : Sim := s

/-- `increment_ip` (`process.c`, lines 480-498): advance `ip` when the next
address is valid, then drag `sp` to `ip`. -/
def increment_ip (s : Sim) (pidx : Nat) : Sim :=
  let p := s.procs pidx
  let p := if sal_mem_is_address_valid s (p.ip + 1)
    then { p with ip := p.ip + 1 } else p
  set_proc s pidx { p with sp := p.ip }

/-- `increment_sp` (`process.c`, lines 566-584): step `sp` one cell forward
or backward, but only when the destination is a valid address — at either
boundary `sp` is left unchanged.  The backward probe is the C expression
`sp - 1` in `uint32` arithmetic, which wraps to `2^32 - 1` at `sp = 0`. -/
def increment_sp (s : Sim) (pidx : Nat) (forward : Bool) : Sim :=
  let p := s.procs pidx
  let p := if forward && sal_mem_is_address_valid s (p.sp + 1)
    then { p with sp := p.sp + 1 } else p
  let p := if !forward && sal_mem_is_address_valid s (u32dec p.sp)
    then { p with sp := u32dec p.sp } else p
  set_proc s pidx p

/-- `are_templates_complements` (`process.c`, lines 500-564): walk the
source template, demanding the complement head hold the negated NOP at each
step.  The C loop terminates because each iteration increments `source`,
which stays below `g_memory_size` while the loop guard holds; here
`s.memSize - source` decreases. -/
def are_templates_complements (s : Sim) (source complement : Nat) : Bool :=
  if h : sal_mem_is_address_valid s source
      ∧ sal_is_template (sal_mem_get_inst s source) then
    if !sal_mem_is_address_valid s complement then false
    else
      let inst_src := sal_mem_get_inst s source
      let inst_comp := sal_mem_get_inst s complement
      if inst_src = NOP0 ∧ inst_comp ≠ NOP1 then false
      else if inst_src = NOP1 ∧ inst_comp ≠ NOP0 then false
      else are_templates_complements s (source + 1) (complement + 1)
  else true
termination_by s.memSize - source
decreasing_by
  simp only [sal_mem_is_address_valid, decide_eq_true_eq] at h
  omega

/-- `jump_seek` (`process.c`, lines 586-630): returns whether a complementary
template was found, together with the updated state. -/
def jump_seek (s : Sim) (pidx : Nat) (forward : Bool) : Bool × Sim :=
  let next_addr := (s.procs pidx).ip + 1
  if !sal_mem_is_address_valid s next_addr then
    (false, increment_ip (on_fault s pidx) pidx)
  else if !sal_is_template (sal_mem_get_inst s next_addr) then
    (false, increment_ip (on_fault s pidx) pidx)
  else if are_templates_complements s next_addr (s.procs pidx).sp then
    (true, s)
  else
    (false, increment_sp s pidx forward)

/-- `jump` (`process.c`, lines 632-656): land `ip` on `sp`. -/
def jump (s : Sim) (pidx : Nat) : Sim :=
  let p := s.procs pidx
  set_proc s pidx { p with ip := p.sp }

/-- `addr_seek` (`process.c`, lines 658-710). -/
def addr_seek (s : Sim) (pidx : Nat) (forward : Bool) : Bool × Sim :=
  let next1_addr := (s.procs pidx).ip + 1
  let next2_addr := (s.procs pidx).ip + 2
  if !sal_mem_is_address_valid s next1_addr
      || !sal_mem_is_address_valid s next2_addr then
    (false, increment_ip (on_fault s pidx) pidx)
  else if !sal_is_mod (sal_mem_get_inst s next1_addr)
      || !sal_is_template (sal_mem_get_inst s next2_addr) then
    (false, increment_ip (on_fault s pidx) pidx)
  else if are_templates_complements s next2_addr (s.procs pidx).sp then
    (true, s)
  else
    (false, increment_sp s pidx forward)

/-- The operand-fetch loop of `get_register_pointers` (`process.c`, lines
712-760): read `reg_count` cells after `ip`, each of which must be a valid
address holding a register modifier; the register ordinal is the modifier
minus `MODA`.  Returns `none` on the fault condition. -/
def get_regs_from (s : Sim) (pidx : Nat) :
    Nat → Nat → Option (List Nat)
  | _, 0 => some []
  | ridx, n + 1 =>
    let mod_addr := (s.procs pidx).ip + 1 + ridx
    if !sal_mem_is_address_valid s mod_addr
        || !sal_is_mod (sal_mem_get_inst s mod_addr) then
      none
    else
      match get_regs_from s pidx (ridx + 1) n with
      | none => none
      | some rest => some ((sal_mem_get_inst s mod_addr - MODA) :: rest)

/-- `get_register_pointers` (`process.c`): fetch `reg_count` register
ordinals starting right after `ip`. -/
def get_register_pointers (s : Sim) (pidx reg_count : Nat) :
    Option (List Nat) :=
  get_regs_from s pidx 0 reg_count

/-- `addr` (`process.c`, lines 762-798): store `sp` in the operand register
(or fault), then advance `ip`. -/
def addr_store (s : Sim) (pidx : Nat) : Sim :=
  match get_register_pointers s pidx 1 with
  | none => increment_ip (on_fault s pidx) pidx
  | some regs =>
    let r := regs.headD 0
    let p := s.procs pidx
    increment_ip (set_proc s pidx (write_reg p r p.sp)) pidx

/-- The block loop of `proc_create` (`process.c`, lines 281-284): set the
ALLOCATED flag on `n` consecutive cells starting at `address`. -/
def alloc_block_loop (s : Sim) (address : Nat) : Nat → Sim
  | 0 => s
  | n + 1 => alloc_block_loop (sal_mem_set_allocated s address) (address + 1) n

/-- The loop of `free_memory_block` (`process.c`, lines 309-326): clear the
ALLOCATED flag on `n` consecutive cells starting at `address`. -/
def free_block_loop (s : Sim) (address : Nat) : Nat → Sim
  | 0 => s
  | n + 1 => free_block_loop (sal_mem_unset_allocated s address) (address + 1) n

/-- `free_memory_block` (`process.c`, lines 309-326). -/
def free_memory_block (s : Sim) (address size : Nat) : Sim :=
  free_block_loop s address size

/-- `free_memory_owned_by` (`process.c`, lines 328-344): free `mb1`, and
`mb2` as well when `mb2s ≠ 0`. -/
def free_memory_owned_by (s : Sim) (pidx : Nat) : Sim :=
  let p := s.procs pidx
  let s := free_memory_block s p.mb1a p.mb1s
  if p.mb2s ≠ 0 then free_memory_block s p.mb2a p.mb2s else s

/-- `free_child_block_of` (`process.c`, lines 800-812). -/
def free_child_block_of (s : Sim) (pidx : Nat) : Sim :=
  let p := s.procs pidx
  let s := free_memory_block s p.mb2a p.mb2s
  set_proc s pidx { s.procs pidx with mb2a := 0, mb2s := 0 }

/-- `proc_create` (`process.c`, lines 259-296): optionally allocate the
block, then take a queue slot and initialize `mb1` / `ip` / `sp`. -/
def proc_create (s : Sim) (address size queue_lock : Nat)
    (allocate : Bool) : Sim :=
  let s := if allocate then alloc_block_loop s address size else s
  let r := get_new_proc_from_queue s queue_lock
  let s := r.1
  let pidx := r.2
  set_proc s pidx
    { s.procs pidx with
      mb1a := address,
      mb1s := size,
      ip := address,
      sp := address }

/-- `sal_proc_create` (`process.c`, lines 298-307). -/
def sal_proc_create (s : Sim) (address mb1s : Nat) : Sim :=
  proc_create s address mb1s 0 true

/-- `proc_kill` (`process.c`, lines 346-371): free the oldest process's
memory, zero its slot, decrement the count, and either reset the queue
sentinels (when it was the only one) or advance `g_first` mod capacity. -/
def proc_kill (s : Sim) : Sim :=
  let s := free_memory_owned_by s s.first
  let s := set_proc s s.first zeroProc
  let s := { s with count := s.count - 1 }
  if s.first = s.last then
    { s with first := UINT32_MAX, last := UINT32_MAX }
  else
    { s with first := (s.first + 1) % u32Mod % s.qcap }

/-- `alloc` (`process.c`, lines 814-905): the MALB/MALF state machine. -/
def alloc (s : Sim) (pidx : Nat) (forward : Bool) : Sim :=
  match get_register_pointers s pidx 2 with
  | none => increment_ip (on_fault s pidx) pidx
  | some regs =>
    let r0 := regs.headD 0
    let r1 := (regs.drop 1).headD 0
    let p := s.procs pidx
    let block_size := read_reg p r0
    if block_size = 0 then increment_ip (on_fault s pidx) pidx
    else if p.mb2s ≠ 0 &&
        p.sp ≠ (if forward then p.mb2a + p.mb2s else u32dec p.mb2a) then
      increment_ip (on_fault s pidx) pidx
    else if p.mb2s = block_size then
      let s := increment_ip s pidx
      set_proc s pidx (write_reg (s.procs pidx) r1 (s.procs pidx).mb2a)
    else if sal_mem_is_allocated s p.sp then
      let s := if p.mb2s ≠ 0 then free_child_block_of s pidx else s
      increment_sp s pidx forward
    else
      let s := sal_mem_set_allocated s p.sp
      let p := s.procs pidx
      let p := if p.mb2s = 0 || !forward then { p with mb2a := p.sp } else p
      let s := set_proc s pidx { p with mb2s := p.mb2s + 1 }
      increment_sp s pidx forward

/-- `swap` (`process.c`, lines 907-929). -/
def swap (s : Sim) (pidx : Nat) : Sim :=
  let p := s.procs pidx
  let s := if p.mb2s ≠ 0 then
    set_proc s pidx
      { p with
        mb1a := p.mb2a,
        mb1s := p.mb2s,
        mb2a := p.mb1a,
        mb2s := p.mb1s }
  else on_fault s pidx
  increment_ip s pidx

/-- `split` (`process.c`, lines 931-949): when a child block exists, create a
new process on it with the caller's slot as queue lock, then zero `mb2`;
always advance `ip`. -/
def split (s : Sim) (pidx : Nat) : Sim :=
  let p := s.procs pidx
  let s := if p.mb2s ≠ 0 then
    let s := proc_create s p.mb2a p.mb2s pidx false
    set_proc s pidx { s.procs pidx with mb2a := 0, mb2s := 0 }
  else on_fault s pidx
  increment_ip s pidx

/-- `one_reg_op` (`process.c`, lines 951-997). -/
def one_reg_op (s : Sim) (pidx inst : Nat) : Sim :=
  match get_register_pointers s pidx 1 with
  | none => increment_ip (on_fault s pidx) pidx
  | some regs =>
    let r := regs.headD 0
    let p := s.procs pidx
    let v := read_reg p r
    let v' :=
      if inst = INCN then (v + 1) % u32Mod
      else if inst = DECN then u32dec v
      else if inst = SHFL then u32shl v 1
      else if inst = SHFR then v >>> 1
      else if inst = ZERO then 0
      else if inst = UNIT then 1
      else if v = 0 then 1 else 0
    increment_ip (set_proc s pidx (write_reg p r v')) pidx

/-- `if_not_zero` (`process.c`, lines 999-1023): an extra `ip` step skips the
next cell when the register is zero; the instruction itself always advances
`ip` twice afterwards. -/
def if_not_zero (s : Sim) (pidx : Nat) : Sim :=
  match get_register_pointers s pidx 1 with
  | none => increment_ip (on_fault s pidx) pidx
  | some regs =>
    let r := regs.headD 0
    let s := if read_reg (s.procs pidx) r = 0 then increment_ip s pidx else s
    increment_ip (increment_ip s pidx) pidx

/-- `three_reg_op` (`process.c`, lines 1025-1070): SUMN/SUBN/MULN with
wrap-around `uint32` arithmetic; DIVN faults on a zero divisor. -/
def three_reg_op (s : Sim) (pidx inst : Nat) : Sim :=
  match get_register_pointers s pidx 3 with
  | none => increment_ip (on_fault s pidx) pidx
  | some regs =>
    let r0 := regs.headD 0
    let r1 := (regs.drop 1).headD 0
    let r2 := (regs.drop 2).headD 0
    let p := s.procs pidx
    let a := read_reg p r1
    let b := read_reg p r2
    if inst = DIVN ∧ b = 0 then
      increment_ip (on_fault s pidx) pidx
    else
      let v :=
        if inst = SUMN then (a + b) % u32Mod
        else if inst = SUBN then (a + (u32Mod - b % u32Mod)) % u32Mod
        else if inst = MULN then (a * b) % u32Mod
        else a / b
      increment_ip (set_proc s pidx (write_reg p r0 v)) pidx

/-- `load` (`process.c`, lines 1072-1100). -/
def load (s : Sim) (pidx : Nat) : Sim :=
  match get_register_pointers s pidx 2 with
  | none => increment_ip (on_fault s pidx) pidx
  | some regs =>
    let r0 := regs.headD 0
    let r1 := (regs.drop 1).headD 0
    let p := s.procs pidx
    let a := read_reg p r0
    if !sal_mem_is_address_valid s a then
      increment_ip (on_fault s pidx) pidx
    else if p.sp < a then increment_sp s pidx true
    else if a < p.sp then increment_sp s pidx false
    else
      increment_ip
        (set_proc s pidx (write_reg p r1 (sal_mem_get_inst s a))) pidx

/-- `is_writeable_by` (`process.c`, lines 1102-1126). -/
def is_writeable_by (s : Sim) (pidx address : Nat) : Bool :=
  if !sal_mem_is_allocated s address then true
  else
    let p := s.procs pidx
    (p.mb1a ≤ address && address < p.mb1a + p.mb1s)
    || (p.mb2a ≤ address && address < p.mb2a + p.mb2s)

/-- `write` (`process.c`, lines 1128-1159). -/
def write (s : Sim) (pidx : Nat) : Sim :=
  match get_register_pointers s pidx 2 with
  | none => increment_ip (on_fault s pidx) pidx
  | some regs =>
    let r0 := regs.headD 0
    let r1 := (regs.drop 1).headD 0
    let p := s.procs pidx
    let a := read_reg p r0
    let v := read_reg p r1
    if !sal_mem_is_address_valid s a || !sal_is_inst v then
      increment_ip (on_fault s pidx) pidx
    else if p.sp < a then increment_sp s pidx true
    else if a < p.sp then increment_sp s pidx false
    else if is_writeable_by s pidx a then
      increment_ip (sal_mem_set_inst s a v) pidx
    else
      increment_ip (on_fault s pidx) pidx

/-- `_sal_comm_send` (`common.c`): the pipe is modelled as the log of sent
bytes. -/
def sal_comm_send (s : Sim) (inst : Nat) : Sim :=
  { s with sent := s.sent ++ [inst] }

/-- `_sal_comm_receive` (`common.c`): pop the receive queue, or yield `NOP0`
when it is empty. -/
def sal_comm_receive (s : Sim) : Nat × Sim :=
  match s.recvq with
  | [] => (NOP0, s)
  | i :: rest => (i, { s with recvq := rest })

/-- `send` (`process.c`, lines 1161-1185). -/
def send (s : Sim) (pidx : Nat) : Sim :=
  match get_register_pointers s pidx 1 with
  | none => increment_ip (on_fault s pidx) pidx
  | some regs =>
    let r := regs.headD 0
    let v := read_reg (s.procs pidx) r
    if !sal_is_inst v then increment_ip (on_fault s pidx) pidx
    else increment_ip (sal_comm_send s v) pidx

/-- `receive` (`process.c`, lines 1187-1208). -/
def receive (s : Sim) (pidx : Nat) : Sim :=
  match get_register_pointers s pidx 1 with
  | none => increment_ip (on_fault s pidx) pidx
  | some regs =>
    let r := regs.headD 0
    let rcv := sal_comm_receive s
    let s := rcv.2
    increment_ip (set_proc s pidx (write_reg (s.procs pidx) r rcv.1)) pidx

/-- `push` (`process.c`, lines 1210-1234): shift the 8-slot stack down and
place the register on top. -/
def push (s : Sim) (pidx : Nat) : Sim :=
  match get_register_pointers s pidx 1 with
  | none => increment_ip (on_fault s pidx) pidx
  | some regs =>
    let r := regs.headD 0
    let p := s.procs pidx
    let p := { p with stack := read_reg p r :: p.stack.take 7 }
    increment_ip (set_proc s pidx p) pidx

/-- `pop` (`process.c`, lines 1236-1261): read the top of the stack into the
register, shift the stack up, zero the bottom slot. -/
def pop (s : Sim) (pidx : Nat) : Sim :=
  match get_register_pointers s pidx 1 with
  | none => increment_ip (on_fault s pidx) pidx
  | some regs =>
    let r := regs.headD 0
    let p := s.procs pidx
    let v := p.stack.headD 0
    let p := write_reg { p with stack := p.stack.drop 1 ++ [0] } r v
    increment_ip (set_proc s pidx p) pidx

/-- `proc_cycle` (`process.c`, lines 1263-1339): decode the opcode under `ip`
and dispatch; unknown / NOP opcodes just advance `ip`. -/
def proc_cycle (s : Sim) (pidx : Nat) : Sim :=
  let inst := sal_mem_get_inst s (s.procs pidx).ip
  if inst = JMPB then
    let r := jump_seek s pidx false
    if r.1 then jump r.2 pidx else r.2
  else if inst = JMPF then
    let r := jump_seek s pidx true
    if r.1 then jump r.2 pidx else r.2
  else if inst = ADRB then
    let r := addr_seek s pidx false
    if r.1 then addr_store r.2 pidx else r.2
  else if inst = ADRF then
    let r := addr_seek s pidx true
    if r.1 then addr_store r.2 pidx else r.2
  else if inst = MALB then alloc s pidx false
  else if inst = MALF then alloc s pidx true
  else if inst = SWAP then swap s pidx
  else if inst = SPLT then split s pidx
  else if inst = INCN ∨ inst = DECN ∨ inst = SHFL ∨ inst = SHFR
      ∨ inst = ZERO ∨ inst = UNIT ∨ inst = NOTN then
    one_reg_op s pidx inst
  else if inst = IFNZ then if_not_zero s pidx
  else if inst = SUMN ∨ inst = SUBN ∨ inst = MULN ∨ inst = DIVN then
    three_reg_op s pidx inst
  else if inst = LOAD then load s pidx
  else if inst = WRTE then write s pidx
  else if inst = SEND then send s pidx
  else if inst = RECV then receive s pidx
  else if inst = PSHN then push s pidx
  else if inst = POPN then pop s pidx
  else increment_ip s pidx

/-- The iteration loop of `_sal_proc_cycle` (`process.c`, lines 1360-1364):
step `pidx` down with `uint32` wrap and reduce mod capacity, cycling each
process, until `pidx` reaches `g_first`.  The fuel bounds the trip count;
`g_count` suffices because `g_first` lies `g_count - 1` backward steps from
`g_last`. -/
def cycle_loop (s : Sim) (pidx : Nat) : Nat → Sim
  | 0 => s
  | fuel + 1 =>
    if pidx = s.first then s
    else
      let pidx' := u32dec pidx % s.qcap
      cycle_loop (proc_cycle s pidx') pidx' fuel

/-- The reap loop of `_sal_proc_cycle` (`process.c`, lines 1369-1371): kill
the oldest process while `allocated > capacity`.  The fuel bounds the trip
count; `g_count` suffices because each kill frees at least one live process
and `allocated = 0 ≤ capacity` once none remain. -/
def reap_loop : Nat → Sim → Sim
  | 0, s => s
  | fuel + 1, s =>
    if s.allocCount > s.memCap then reap_loop fuel (proc_kill s) else s

/-- `_sal_proc_cycle` (`process.c`, lines 1341-1373): when any process
lives, cycle `g_last` first, walk backward to `g_first`, then reap while
over capacity. -/
def sal_proc_cycle (s : Sim) : Sim :=
  if s.count ≠ 0 then
    let s1 := proc_cycle s s.last
    let s2 := cycle_loop s1 s.last s1.count
    reap_loop s2.count s2
  else s

/-- The slot-visit order of the iteration loop, as a pure projection: the
successive values `pidx` takes after the initial `g_last` visit (computed
against the frozen `first`/`qcap` the loop reads). -/
def cycle_visit_loop (cap first : Nat) : Nat → Nat → List Nat
  | _, 0 => []
  | pidx, fuel + 1 =>
    if pidx = first then []
    else
      let pidx' := u32dec pidx % cap
      pidx' :: cycle_visit_loop cap first pidx' fuel

/-- The full visit order of a process tick: `g_last`, then the loop's
visits.  Empty when no process lives. -/
def sal_proc_cycle_visits (s : Sim) : List Nat :=
  if s.count ≠ 0 then s.last :: cycle_visit_loop s.qcap s.first s.last s.count
  else []

/-! ## Evolver (`src/src/evolver.c`) -/

/-- The evolver module's observability fields besides the PRNG state. -/
structure EvoModule where
  state : EvoState
  last_changed_address : Nat
  last_changed_process : Nat
  deriving Repr, DecidableEq

/-- Modelled from the spec: `proc_mutate` picks one of the four registers by
two bits of the random value and shifts it left by one.  (The function is
declared in `process.h` but its definition is absent from this tree, so the
spec's description is the only available account.) -/
def sal_proc_mutate (s : Sim) (pidx rand_val : Nat) : Sim :=
  let r := rand_val % 4
  let p := s.procs pidx
  set_proc s pidx (write_reg p r (u32shl (read_reg p r) 1))

/-- `_sal_evo_randomize_at` (`evolver.c`, lines 111-122). -/
def sal_evo_randomize_at (em : EvoModule) (s : Sim) (address : Nat) :
    EvoModule × Sim :=
  let d := generate_random_number em.state
  let inst := d.1 % INST_COUNT
  ({ em with state := d.2, last_changed_address := address },
    sal_mem_set_inst s address inst)

/-- `_sal_evo_cycle` (`evolver.c`, lines 124-150): draw two numbers, use the
first as a cosmic-ray address and divide the second by the live-process
count — with no guard, so a zero count is a C division by zero, modelled as
`none`. -/
def sal_evo_cycle (em : EvoModule) (s : Sim) : Option (EvoModule × Sim) :=
  let d1 := generate_random_number em.state
  let address := d1.1
  let em := { em with state := d1.2 }
  let d2 := generate_random_number em.state
  let em := { em with state := d2.2 }
  if s.count = 0 then none
  else
    let proc_id := d2.1 / s.count
    let r := if sal_mem_is_address_valid s address then
      sal_evo_randomize_at em s address else (em, s)
    let em := r.1
    let s := r.2
    if proc_id < s.qcap ∧ sal_proc_is_free s proc_id = false then
      let d3 := generate_random_number em.state
      let em := { em with state := d3.2 }
      let s := sal_proc_mutate s proc_id d3.1
      some ({ em with last_changed_process := proc_id }, s)
    else
      some (em, s)

/-! ## Renderer (`src/src/render.c`) -/

/-- `ALLOCATED_FLAG` (`memory.h`). -/
def ALLOCATED_FLAG : Nat := 0x20

/-- `BLOCK_FLAG` (`render.c`). -/
def BLOCK_FLAG : Nat := 0x40

/-- `IP_FLAG` (`render.c`). -/
def IP_FLAG : Nat := 0x80

/-- The per-pixel base pass of `sal_ren_get_image` (`render.c`, lines
48-70): average the opcodes over the cell (skipping invalid addresses) and
or in `ALLOCATED_FLAG` when any cell byte is allocated. -/
def render_base_pixel (s : Sim) (origin cell_size i : Nat) : Nat :=
  let cell_addr := origin + i * cell_size
  let addrs := (List.range cell_size).map (fun j => j + cell_addr)
  let valid := addrs.filter (fun a => sal_mem_is_address_valid s a)
  let inst_sum := (valid.map (fun a => sal_mem_get_inst s a)).sum
  let alloc_flag := if valid.any (fun a => sal_mem_is_allocated s a)
    then ALLOCATED_FLAG else 0
  inst_sum / cell_size % 256 ||| alloc_flag

/-- `apply_flag` (`render.c`, lines 12-23): or `flag` into the pixel holding
`address`, but only when `address` lies inside `[origin, max_pos)`. -/
def apply_flag (origin max_pos cell_size address flag : Nat)
    (buffer : List Nat) : List Nat :=
  if origin ≤ address ∧ address < max_pos then
    let pixel := (address - origin) / cell_size
    buffer.set pixel (buffer.getD pixel 0 ||| flag)
  else buffer

/-- `sal_ren_get_image` (`render.c`, lines 25-93): the base pass over
`buff_size` pixels, then the overlay loop — which iterates `i` over
`0 ≤ i < g_count` (the slot indices `0 .. count-1`, not the live span
`first .. last`), or-ing `IP_FLAG` / `BLOCK_FLAG` pixels for each non-free
slot it reaches. -/
def sal_ren_get_image (s : Sim) (origin cell_size buff_size : Nat) :
    List Nat :=
  let base := (List.range buff_size).map
    (fun i => render_base_pixel s origin cell_size i)
  let max_pos := origin + cell_size * buff_size
  (List.range s.count).foldl
    (fun buffer i =>
      if sal_proc_is_free s i then buffer
      else
        let p := s.procs i
        let buffer := apply_flag origin max_pos cell_size p.ip IP_FLAG buffer
        let buffer := apply_flag origin max_pos cell_size p.mb1a BLOCK_FLAG
          buffer
        if p.mb2s ≠ 0 then
          apply_flag origin max_pos cell_size p.mb2a BLOCK_FLAG buffer
        else buffer)
    base

/-! ## Concrete states used by the witnesses -/

/-- A freshly initialized world of order 2: 4 cells of NOP0, no process
(`first = last = UINT32_MAX`), queue capacity 1, memory capacity
`size / 2 = 2`. -/
def emptySim : Sim :=
  ⟨4, 2, fun _ => 0, fun _ => false, 0,
    fun i => if i = 0 then 4 else 0, 0, 1, UINT32_MAX, UINT32_MAX,
    fun _ => zeroProc, [], []⟩

/-- One process over a 4-cell memory holding `JMPF NOP0 NOP0 NOP0`: its `sp`
already sits at the last address 3, so a forward search is stalled at the
boundary. -/
def stalledSim : Sim :=
  ⟨4, 2, fun a => if a = 0 then JMPF else NOP0, fun _ => false, 0,
    fun i => if i = NOP0 then 3 else if i = JMPF then 1 else 0,
    1, 1, 0, 0, fun _ => { zeroProc with mb1s := 4, sp := 3 }, [], []⟩

/-- A queue of capacity 2 whose single live process sits in slot 1
(`first = last = 1`), owning cell 0 with its `ip` there — reachable by
creating two processes and killing the older. -/
def lastSlotSim : Sim :=
  ⟨4, 2, fun _ => 0, fun a => decide (a = 0), 1,
    fun i => if i = 0 then 4 else 0, 1, 2, 1, 1,
    fun i => if i = 1 then { zeroProc with mb1a := 0, mb1s := 1 }
      else zeroProc, [], []⟩

/-- A full queue: capacity 2, two live processes in slots 0 and 1 with
`first = 1`, `last = 0` (slot 1 is the older), over an 8-cell memory. -/
def fullQueueSim : Sim :=
  ⟨8, 4, fun _ => 0, fun a => decide (a < 2), 2,
    fun i => if i = 0 then 8 else 0, 2, 2, 1, 0,
    fun i => if i = 0 then { zeroProc with mb1a := 0, mb1s := 1 }
      else { zeroProc with mb1a := 1, mb1s := 1 }, [], []⟩

/-- One process over an 8-cell memory holding `DIVN MODC MODA MODB ...`
with `rax = 7`, `rbx = 0`, `rcx = 9`: a division with zero divisor. -/
def divnSim : Sim :=
  ⟨8, 4,
    fun a => if a = 0 then DIVN else if a = 1 then MODC
      else if a = 2 then MODA else if a = 3 then MODB else NOP0,
    fun _ => false, 0, fun _ => 0, 1, 1, 0, 0,
    fun _ => { zeroProc with mb1s := 8, rax := 7, rbx := 0, rcx := 9 },
    [], []⟩

/-- A world over capacity: 4 cells all allocated (`allocCount = 4 > memCap
= 2`), two live processes — slot 0 (the older, `first`) owning cells 0-1 as
`mb1` and slot 1 (`last`) owning cells 2-3. -/
def overCapSim : Sim :=
  ⟨4, 2, fun _ => 0, fun a => decide (a < 4), 4,
    fun i => if i = 0 then 4 else 0, 2, 2, 0, 1,
    fun i => if i = 0 then { zeroProc with mb1a := 0, mb1s := 2 }
      else if i = 1 then { zeroProc with mb1a := 2, mb1s := 2 }
      else zeroProc, [], []⟩

/-! ## Ownership and queue shape (for reasoning about the reap loop)

`proc_kill` frees the blocks of the process in slot `g_first`; for the freed
cells to actually lower `g_allocated_count` by the block sizes, the cells
must be allocated and owned by no other process — the invariant
`module_is_valid` (`process.c`, lines 428-467) checks in debug builds. -/

/-- The set of cells a process owns: its `mb1` block, plus its `mb2` block
when `mb2s ≠ 0`. -/
def owns (p : Proc) (x : Nat) : Prop :=
  (p.mb1a ≤ x ∧ x < p.mb1a + p.mb1s)
  ∨ (p.mb2s ≠ 0 ∧ p.mb2a ≤ x ∧ x < p.mb2a + p.mb2s)

instance (p : Proc) (x : Nat) : Decidable (owns p x) := by
  unfold owns
  infer_instance

/-- The amount of memory a slot accounts for: `mb1s`, plus `mb2s` when the
child block exists. -/
def owned_size (p : Proc) : Nat :=
  p.mb1s + (if p.mb2s ≠ 0 then p.mb2s else 0)

/-- The live slots of the queue, oldest first: slot `(first + a) % qcap`
holds the process of age rank `a`. -/
def live_slot (s : Sim) (a : Nat) : Nat := (s.first + a) % s.qcap

/-- The shape `module_is_valid` (`process.c`) checks, restricted to what the
reap loop needs: a coherent circular queue whose live slots own disjoint,
in-bounds, allocated blocks; free slots are zeroed; every allocated cell is
owned; and `g_allocated_count` equals the total owned size. -/
def queue_inv (s : Sim) : Prop :=
  0 < s.qcap ∧ s.count ≤ s.qcap
  ∧ (0 < s.count → s.first < s.qcap
      ∧ s.last = (s.first + (s.count - 1)) % s.qcap)
  ∧ (∀ a, a < s.count → ¬ sal_proc_is_free s (live_slot s a) = true)
  ∧ (∀ i, i < s.qcap → (∀ a, a < s.count → live_slot s a ≠ i) →
      s.procs i = zeroProc)
  ∧ (∀ a, a < s.count →
      (s.procs (live_slot s a)).mb1a + (s.procs (live_slot s a)).mb1s
        ≤ s.memSize
      ∧ ((s.procs (live_slot s a)).mb2s ≠ 0 →
          (s.procs (live_slot s a)).mb2a + (s.procs (live_slot s a)).mb2s
            ≤ s.memSize)
      ∧ (∀ x, x < s.memSize → owns (s.procs (live_slot s a)) x →
          s.alloc x = true))
  ∧ (∀ a, a < s.count → (s.procs (live_slot s a)).mb2s ≠ 0 →
      (s.procs (live_slot s a)).mb1a + (s.procs (live_slot s a)).mb1s
        ≤ (s.procs (live_slot s a)).mb2a
      ∨ (s.procs (live_slot s a)).mb2a + (s.procs (live_slot s a)).mb2s
        ≤ (s.procs (live_slot s a)).mb1a)
  ∧ (∀ a, a < s.count → ∀ b, b < s.count → a ≠ b →
      ∀ x, x < s.memSize → owns (s.procs (live_slot s a)) x →
        ¬ owns (s.procs (live_slot s b)) x)
  ∧ (∀ x, x < s.memSize → s.alloc x = true →
      ∃ a, a < s.count ∧ owns (s.procs (live_slot s a)) x)
  ∧ s.allocCount
      = ((List.range s.count).map
          (fun a => owned_size (s.procs (live_slot s a)))).sum

set_option synthInstance.maxSize 2000 in
set_option maxHeartbeats 1000000 in
instance (s : Sim) : Decidable (queue_inv s) := by
  unfold queue_inv
  infer_instance

/-! # Theorems -/

/-- **C7.** Every PRNG draw transforms the four-word state exactly by the
spec's xorshift recurrence (`t = s3; t ^= t << 11; t ^= t >> 8;` then new
state `(t ^ s0 ^ (s0 >> 19), s0, s1, s2)`, returning the new `s0`), and two
runs from identical seed states produce identical output sequences. -/
theorem prng_draw_matches_spec_and_is_deterministic (s t : EvoState)
    (h : s = t) :
    generate_random_number s = xorshift_spec_step s
    ∧ ∀ n, prng_stream s n = prng_stream t n := by
  subst h
  refine ⟨?_, fun n => rfl⟩
  simp [generate_random_number, xorshift_spec_step, Nat.xor_assoc]

theorem prng_draw_matches_spec_and_is_deterministic_witness :
    generate_random_number ⟨1, 2, 3, 4⟩ = xorshift_spec_step ⟨1, 2, 3, 4⟩
    ∧ prng_stream ⟨1, 2, 3, 4⟩ 5 = prng_stream ⟨1, 2, 3, 4⟩ 5 :=
  ⟨(prng_draw_matches_spec_and_is_deterministic ⟨1, 2, 3, 4⟩ ⟨1, 2, 3, 4⟩
      rfl).1,
    (prng_draw_matches_spec_and_is_deterministic ⟨1, 2, 3, 4⟩ ⟨1, 2, 3, 4⟩
      rfl).2 5⟩

/-- The save sequence the code writes differs from the five-header-field
sequence the spec claims: `ip_count` and `block_start_count` sit between
`size` and `allocated` in the file. -/
theorem mem_save_differs_from_claimed_sequence :
    sal_mem_save_into ⟨1, 0, 1, 0, 0, 0, 0, List.replicate 32 0, [0]⟩
    ≠ mem_save_claimed_sequence
        ⟨1, 0, 1, 0, 0, 0, 0, List.replicate 32 0, [0]⟩ := by
  decide

/-- **C6 (amended).** The memory section of a snapshot is exactly the
sequence `is_init, order, size, ip_count, block_start_count, allocated,
capacity`, the 32 instruction counters, then the `size` memory bytes — and
loading that sequence back restores the module. -/
theorem mem_save_field_sequence_and_roundtrip (m : MemModule)
    (hc : m.inst_counter.length = 32) (hm : m.memory.length = m.size) :
    sal_mem_save_into m
      = [m.is_init, m.order, m.size, m.ip_count, m.block_start_count,
          m.allocated_count, m.capacity] ++ m.inst_counter ++ m.memory
    ∧ sal_mem_load_from (sal_mem_save_into m) = some m := by
  refine ⟨rfl, ?_⟩
  have hlen : 32 + m.size ≤ (m.inst_counter ++ m.memory).length := by
    simp [List.length_append, hc, hm]
  have ht : (m.inst_counter ++ m.memory).take 32 = m.inst_counter := by
    rw [← hc]; exact List.take_left _ _
  have hd : (m.inst_counter ++ m.memory).drop 32 = m.memory := by
    rw [← hc]; exact List.drop_left _ _
  simp only [sal_mem_save_into, sal_mem_load_from, List.cons_append,
    List.nil_append, if_pos hlen]
  rw [ht, hd, ← hm, List.take_length, hm]

theorem mem_save_field_sequence_and_roundtrip_witness :
    (List.replicate 32 0).length = 32
    ∧ sal_mem_load_from (sal_mem_save_into
        ⟨1, 2, 4, 3, 1, 2, 8, List.replicate 32 0, [0, 1, 2, 3]⟩)
      = some ⟨1, 2, 4, 3, 1, 2, 8, List.replicate 32 0, [0, 1, 2, 3]⟩ :=
  ⟨by decide,
    (mem_save_field_sequence_and_roundtrip
      ⟨1, 2, 4, 3, 1, 2, 8, List.replicate 32 0, [0, 1, 2, 3]⟩
      (by decide) (by decide)).2⟩

/-- **C1.** With no live process the evolver tick evaluates
`generate_random_number() / sal_proc_get_count()` with divisor zero — a C
division by zero, with no guard in `_sal_evo_cycle`; the model yields
`none`, refuting the claim that the mutation step is skipped and the tick
never divides by zero. -/
theorem evo_cycle_with_zero_count_divides_by_zero (em : EvoModule) (s : Sim)
    (h : s.count = 0) : sal_evo_cycle em s = none := by
  simp [sal_evo_cycle, h]

theorem evo_cycle_with_zero_count_divides_by_zero_witness :
    sal_evo_cycle ⟨⟨1, 2, 3, 4⟩, 0, 0⟩ emptySim = none :=
  evo_cycle_with_zero_count_divides_by_zero ⟨⟨1, 2, 3, 4⟩, 0, 0⟩ emptySim
    rfl

/-! ## Modular-arithmetic helpers -/

theorem u32Mod_pos : 0 < u32Mod := by norm_num [u32Mod]

theorem u32dec_zero : u32dec 0 = u32Mod - 1 := by
  norm_num [u32dec, u32Mod]

theorem u32dec_succ (x : Nat) (hx : x + 1 < u32Mod) : u32dec (x + 1) = x := by
  have hpos := u32Mod_pos
  have h : x + 1 + (u32Mod - 1) = x + u32Mod := by omega
  rw [u32dec, h, Nat.add_mod_right, Nat.mod_eq_of_lt (by omega)]

theorem mod_add_left_cancel {n a x y : Nat} (hx : x < n) (hy : y < n)
    (h : (a + x) % n = (a + y) % n) : x = y := by
  have h3 : x ≡ y [MOD n] := (Nat.ModEq.refl a).add_left_cancel h
  calc x = x % n := (Nat.mod_eq_of_lt hx).symm
    _ = y % n := h3
    _ = y := Nat.mod_eq_of_lt hy

/-- `increment_sp` as a single conditional write to the process slot. -/
theorem increment_sp_eq (s : Sim) (pidx : Nat) (forward : Bool) :
    increment_sp s pidx forward = set_proc s pidx
      (if forward && sal_mem_is_address_valid s ((s.procs pidx).sp + 1)
       then { s.procs pidx with sp := (s.procs pidx).sp + 1 }
       else if !forward
           && sal_mem_is_address_valid s (u32dec (s.procs pidx).sp)
       then { s.procs pidx with sp := u32dec (s.procs pidx).sp }
       else s.procs pidx) := by
  cases forward <;> simp [increment_sp]

/-- **C10.** A seeker-pointer step saturates at the memory boundaries: a
forward step at `sp = size - 1` and a backward step at `sp = 0` both leave
the process record unchanged, every step keeps `sp` a valid address, and a
search whose complement check fails just steps `sp` — so a boundary-stalled
search repeats the same check each cycle without leaving the valid range. -/
theorem increment_sp_saturates_at_boundaries (s : Sim) (pidx : Nat)
    (hsize : s.memSize ≤ 2 ^ 31) (hsp : (s.procs pidx).sp < s.memSize) :
    (∀ forward, ((increment_sp s pidx forward).procs pidx).sp < s.memSize)
    ∧ ((s.procs pidx).sp + 1 = s.memSize →
        increment_sp s pidx true = set_proc s pidx (s.procs pidx))
    ∧ ((s.procs pidx).sp = 0 →
        increment_sp s pidx false = set_proc s pidx (s.procs pidx))
    ∧ (∀ forward,
        sal_mem_is_address_valid s ((s.procs pidx).ip + 1) = true →
        sal_is_template
          (sal_mem_get_inst s ((s.procs pidx).ip + 1)) = true →
        are_templates_complements s ((s.procs pidx).ip + 1)
          (s.procs pidx).sp = false →
        jump_seek s pidx forward = (false, increment_sp s pidx forward)) := by
  refine ⟨?_, ?_, ?_, ?_⟩
  · intro forward
    rw [increment_sp_eq]
    simp only [set_proc, if_pos]
    split
    · next h =>
      simp only [Bool.and_eq_true, sal_mem_is_address_valid,
        decide_eq_true_eq] at h
      exact h.2
    · split
      · next h =>
        simp only [Bool.and_eq_true, sal_mem_is_address_valid,
          decide_eq_true_eq] at h
        exact h.2
      · exact hsp
  · intro hb
    have hv : sal_mem_is_address_valid s ((s.procs pidx).sp + 1) = false := by
      simp [sal_mem_is_address_valid, hb]
    rw [increment_sp_eq]
    simp [hv]
  · intro hb
    have hv : sal_mem_is_address_valid s (u32dec (s.procs pidx).sp)
        = false := by
      rw [hb, u32dec_zero]
      simp only [sal_mem_is_address_valid, decide_eq_false_iff_not, not_lt]
      norm_num [u32Mod] at hsize ⊢
      omega
    rw [increment_sp_eq]
    simp [hv]
  · intro forward hv ht hc
    simp [jump_seek, hv, ht, hc]

theorem increment_sp_saturates_at_boundaries_witness :
    increment_sp stalledSim 0 true
      = set_proc stalledSim 0 (stalledSim.procs 0)
    ∧ increment_sp emptySim 0 false
      = set_proc emptySim 0 (emptySim.procs 0) :=
  ⟨(increment_sp_saturates_at_boundaries stalledSim 0 (by decide)
      (by decide)).2.1 (by decide),
    (increment_sp_saturates_at_boundaries emptySim 0 (by decide)
      (by decide)).2.2.1 (by decide)⟩

/-- **C8.** A DIVN whose three operand cells hold register modifiers but
whose divisor register reads zero faults: the cycle is exactly a bare
`increment_ip` — memory, flags, counters and all four registers are
untouched, and `ip` advances one cell. -/
theorem divn_with_zero_divisor_faults (s : Sim) (pidx : Nat)
    (hmem : (s.procs pidx).ip + 4 ≤ s.memSize)
    (hd : sal_mem_get_inst s (s.procs pidx).ip = DIVN)
    (h1 : sal_is_mod (sal_mem_get_inst s ((s.procs pidx).ip + 1)) = true)
    (h2 : sal_is_mod (sal_mem_get_inst s ((s.procs pidx).ip + 2)) = true)
    (h3 : sal_is_mod (sal_mem_get_inst s ((s.procs pidx).ip + 3)) = true)
    (hz : read_reg (s.procs pidx)
      (sal_mem_get_inst s ((s.procs pidx).ip + 3) - MODA) = 0) :
    proc_cycle s pidx = increment_ip s pidx
    ∧ (proc_cycle s pidx).inst = s.inst
    ∧ (proc_cycle s pidx).instCount = s.instCount
    ∧ (proc_cycle s pidx).alloc = s.alloc
    ∧ (proc_cycle s pidx).allocCount = s.allocCount
    ∧ ((proc_cycle s pidx).procs pidx).rax = (s.procs pidx).rax
    ∧ ((proc_cycle s pidx).procs pidx).rbx = (s.procs pidx).rbx
    ∧ ((proc_cycle s pidx).procs pidx).rcx = (s.procs pidx).rcx
    ∧ ((proc_cycle s pidx).procs pidx).rdx = (s.procs pidx).rdx
    ∧ ((proc_cycle s pidx).procs pidx).ip = (s.procs pidx).ip + 1 := by
  have hv1 : sal_mem_is_address_valid s ((s.procs pidx).ip + 1) = true := by
    simp only [sal_mem_is_address_valid, decide_eq_true_eq]
    omega
  have hv2 : sal_mem_is_address_valid s ((s.procs pidx).ip + 2) = true := by
    simp only [sal_mem_is_address_valid, decide_eq_true_eq]
    omega
  have hv3 : sal_mem_is_address_valid s ((s.procs pidx).ip + 3) = true := by
    simp only [sal_mem_is_address_valid, decide_eq_true_eq]
    omega
  have e1 : (s.procs pidx).ip + 1 + 1 = (s.procs pidx).ip + 2 := by omega
  have e2 : (s.procs pidx).ip + 1 + 2 = (s.procs pidx).ip + 3 := by omega
  have hregs : get_register_pointers s pidx 3
      = some [sal_mem_get_inst s ((s.procs pidx).ip + 1) - MODA,
          sal_mem_get_inst s ((s.procs pidx).ip + 2) - MODA,
          sal_mem_get_inst s ((s.procs pidx).ip + 3) - MODA] := by
    simp only [get_register_pointers, get_regs_from, Nat.add_zero, e1, e2,
      hv1, hv2, hv3, h1, h2, h3, Bool.not_true, Bool.or_self, if_false]
    simp
  have hstep : proc_cycle s pidx = three_reg_op s pidx DIVN := by
    simp only [proc_cycle, hd]
    norm_num [NOP0, NOP1, MODA, MODB, MODC, MODD, JMPB, JMPF, ADRB, ADRF,
      MALB, MALF, SWAP, SPLT, INCN, DECN, ZERO, UNIT, NOTN, IFNZ, SUMN,
      SUBN, MULN, DIVN, LOAD, WRTE, SEND, RECV, PSHN, POPN, SHFL, SHFR]
  have hfault : three_reg_op s pidx DIVN
      = increment_ip (on_fault s pidx) pidx := by
    simp only [three_reg_op, hregs, List.headD, List.drop]
    simp [hz]
  have heq : proc_cycle s pidx = increment_ip s pidx := by
    rw [hstep, hfault]; rfl
  refine ⟨heq, ?_, ?_, ?_, ?_, ?_, ?_, ?_, ?_, ?_⟩ <;>
    rw [heq] <;> simp [increment_ip, set_proc, hv1]

theorem divn_with_zero_divisor_faults_witness :
    proc_cycle divnSim 0 = increment_ip divnSim 0
    ∧ ((proc_cycle divnSim 0).procs 0).rcx = (divnSim.procs 0).rcx
    ∧ ((proc_cycle divnSim 0).procs 0).ip = (divnSim.procs 0).ip + 1 :=
  ⟨(divn_with_zero_divisor_faults divnSim 0 (by decide) (by decide)
      (by decide) (by decide) (by decide) (by decide)).1,
    (divn_with_zero_divisor_faults divnSim 0 (by decide) (by decide)
      (by decide) (by decide) (by decide) (by decide)).2.2.2.2.2.2.2.1,
    (divn_with_zero_divisor_faults divnSim 0 (by decide) (by decide)
      (by decide) (by decide) (by decide) (by decide)).2.2.2.2.2.2.2.2.2⟩

/-! ## The JMP search at the boundary (C3) -/

/-- **C9.** The renderer's overlay loop iterates the slot indices
`0 .. count-1` instead of the live span `first .. last`: with capacity 2
and a single live process sitting in slot 1, the loop never reaches it, so
the pixel containing the live process's `ip` carries no `IP_FLAG` — the
claim that after rendering every live process's `ip` pixel has bit 7 set
fails on this state. -/
theorem render_overlay_misses_live_process :
    sal_proc_is_free lastSlotSim 1 = false
    ∧ (lastSlotSim.procs 1).ip = 0
    ∧ (sal_ren_get_image lastSlotSim 0 1 4).getD 0 0 = ALLOCATED_FLAG
    ∧ (sal_ren_get_image lastSlotSim 0 1 4).getD 0 0 &&& IP_FLAG = 0 :=
  ⟨by decide, by decide, by decide, by decide⟩

/-! ## The queue reallocation (C2): modular helpers -/

/-- A `uint32` decrement reduced at a modulus dividing `2^32` is a modular
decrement. -/
theorem u32dec_mod (n b : Nat) (hdvd : n ∣ u32Mod) (hb : b < n) :
    u32dec b % n = (b + n - 1) % n := by
  obtain ⟨q, hq⟩ := hdvd
  have hq0 : q ≠ 0 := by
    rintro rfl
    simp [u32Mod] at hq
  obtain ⟨m, rfl⟩ := Nat.exists_eq_succ_of_ne_zero hq0
  have hn0 : 0 < n := by omega
  have hq' : u32Mod = n * m + n := by rw [hq, Nat.mul_succ]
  have hMpos := u32Mod_pos
  have h1 : b + (u32Mod - 1) = (b + n - 1) + n * m := by omega
  rw [u32dec, Nat.mod_mod_of_dvd _ ⟨m + 1, hq⟩, h1]
  exact Nat.add_mul_mod_self_left (b + n - 1) n m

/-- Two backward offsets from the same start that agree modulo the capacity
are equal. -/
theorem mod_sub_inj {n a e j j' : Nat} (hj : j ≤ e) (hj' : j' ≤ e)
    (he : e < n) (h : (a + e - j) % n = (a + e - j') % n) : j = j' := by
  have h1 : a + e - j = a + (e - j) := by omega
  have h2 : a + e - j' = a + (e - j') := by omega
  rw [h1, h2] at h
  have := mod_add_left_cancel (n := n) (a := a) (by omega) (by omega) h
  omega

/-- Reducing the left summand at a multiple of the modulus changes
nothing. -/
theorem mod_of_dvd_add (B y N C : Nat) (h : C ∣ N) :
    (B % N + y) % C = (B + y) % C :=
  ((Nat.mod_modEq B N).of_dvd h).add_right y

/-- A nonzero shift below the modulus moves every residue. -/
theorem mod_shift_ne {n a m : Nat} (hm : 0 < m) (hmn : m < n) :
    a % n ≠ (a + m) % n := by
  intro h
  have h0 : (a + 0) % n = (a + m) % n := by simpa using h
  have := mod_add_left_cancel (n := n) (a := a) (by omega) hmn h0
  omega

/-- Closed form of the forward-copy loop: started at `fi` with the stop
slot `d < C` steps ahead, it ends at `fi + d`, copies the old slots onto
indices `fi .. fi + d`, and touches nothing else. -/
theorem fwd_copy_closed (oldp : Nat → Proc) (C glast : Nat) (hC : 0 < C) :
    ∀ d fi nq fuel, d < C → (fi + d) % C = glast → d < fuel →
      (fwd_copy oldp C glast fuel fi nq).2 = fi + d
      ∧ (∀ i, i ≤ d →
          (fwd_copy oldp C glast fuel fi nq).1 (fi + i)
            = oldp ((fi + i) % C))
      ∧ (∀ x, (∀ i, i ≤ d → x ≠ fi + i) →
          (fwd_copy oldp C glast fuel fi nq).1 x = nq x) := by
  intro d
  induction d with
  | zero =>
    intro fi nq fuel hd hstop hfuel
    match fuel, hfuel with
    | fuel + 1, _ =>
      have hstop' : fi % C = glast := by simpa using hstop
      simp only [fwd_copy]
      rw [if_pos hstop']
      refine ⟨rfl, ?_, ?_⟩
      · intro i hi
        have hi0 : i = 0 := by omega
        subst hi0
        simp [hstop']
      · intro x hx
        have hxfi : x ≠ fi := by simpa using hx 0 (Nat.le_refl 0)
        simp [hxfi]
  | succ d ih =>
    intro fi nq fuel hd hstop hfuel
    match fuel, hfuel with
    | fuel + 1, hfuel =>
      have hne : fi % C ≠ glast := by
        intro he
        have h0 : (fi + 0) % C = (fi + (d + 1)) % C := by
          rw [Nat.add_zero, hstop, he]
        have := mod_add_left_cancel (n := C) (a := fi) (by omega) hd h0
        omega
      simp only [fwd_copy]
      rw [if_neg hne]
      have hstop' : (fi + 1 + d) % C = glast := by
        rw [show fi + 1 + d = fi + (d + 1) by omega]
        exact hstop
      have ihr := ih (fi + 1)
        (fun i => if i = fi then oldp (fi % C) else nq i) fuel
        (by omega) hstop' (by omega)
      refine ⟨by rw [ihr.1]; omega, ?_, ?_⟩
      · intro i hi
        match i with
        | 0 =>
          have hout : ∀ j, j ≤ d → fi ≠ fi + 1 + j := by
            intro j hj
            omega
          rw [Nat.add_zero]
          exact (ihr.2.2 fi hout).trans (by simp)
        | i + 1 =>
          have hv := ihr.2.1 i (by omega)
          rw [show fi + (i + 1) = fi + 1 + i by omega]
          exact hv
      · intro x hx
        have hx' : ∀ j, j ≤ d → x ≠ fi + 1 + j := by
          intro j hj
          have := hx (j + 1) (by omega)
          omega
        have hxfi : x ≠ fi := by
          have := hx 0 (by omega)
          omega
        exact (ihr.2.2 x hx').trans (by simp [hxfi])

set_option maxRecDepth 4096 in
/-- Closed form of the backward-copy loop over the doubled queue: started
at `bi` with the stop slot `e` backward steps away, it ends at
`(bi + 2C - e) % 2C`, copies the old slots onto the `e + 1` visited
indices, and touches nothing else. -/
theorem back_copy_closed (oldp : Nat → Proc) (C gfirst : Nat) (hC : 0 < C)
    (hdvd : 2 * C ∣ u32Mod) :
    ∀ e bi nq fuel, e < C → bi < 2 * C →
      ((bi + 2 * C - e) % (2 * C)) % C = gfirst → e < fuel →
      (back_copy oldp C (2 * C) gfirst fuel bi nq).2
          = (bi + 2 * C - e) % (2 * C)
      ∧ (∀ j, j ≤ e →
          (back_copy oldp C (2 * C) gfirst fuel bi nq).1
              ((bi + 2 * C - j) % (2 * C))
            = oldp (((bi + 2 * C - j) % (2 * C)) % C))
      ∧ (∀ x, (∀ j, j ≤ e → x ≠ (bi + 2 * C - j) % (2 * C)) →
          (back_copy oldp C (2 * C) gfirst fuel bi nq).1 x = nq x) := by
  intro e
  induction e with
  | zero =>
    intro bi nq fuel he hbi hstop hfuel
    have h0 : (bi + 2 * C - 0) % (2 * C) = bi := by
      rw [Nat.sub_zero, Nat.add_mod_right, Nat.mod_eq_of_lt hbi]
    have hstop' : bi % C = gfirst := by
      rw [h0] at hstop
      exact hstop
    match fuel, hfuel with
    | fuel + 1, _ =>
      simp only [back_copy]
      rw [if_pos hstop']
      refine ⟨h0.symm, ?_, ?_⟩
      · intro j hj
        have hj0 : j = 0 := by omega
        subst hj0
        rw [h0]
        simp [hstop']
      · intro x hx
        have hxbi : x ≠ bi := by
          have := hx 0 (Nat.le_refl 0)
          rw [h0] at this
          exact this
        simp [hxbi]
  | succ e ih =>
    intro bi nq fuel he hbi hstop hfuel
    match fuel, hfuel with
    | fuel + 1, hfuel =>
      have h2C : 0 < 2 * C := by omega
      have hbi' : u32dec bi % (2 * C) = (bi + 2 * C - 1) % (2 * C) :=
        u32dec_mod (2 * C) bi hdvd hbi
      have hidx : ∀ j, j + 1 ≤ 2 * C →
          (u32dec bi % (2 * C) + 2 * C - j) % (2 * C)
            = (bi + 2 * C - (j + 1)) % (2 * C) := by
        intro j hj
        have h1 : u32dec bi % (2 * C) + 2 * C - j
            = u32dec bi % (2 * C) + (2 * C - j) := by omega
        rw [h1, hbi', Nat.mod_add_mod]
        have h2 : bi + 2 * C - 1 + (2 * C - j)
            = (bi + 2 * C - (j + 1)) + 2 * C := by omega
        rw [h2, Nat.add_mod_right]
      have h0 : (bi + 2 * C - 0) % (2 * C) = bi := by
        rw [Nat.sub_zero, Nat.add_mod_right, Nat.mod_eq_of_lt hbi]
      have hCd2 : C ∣ 2 * C := dvd_mul_left C 2
      have hne : bi % C ≠ gfirst := by
        intro hbad
        have hs1 : ((bi + 2 * C - (e + 1)) % (2 * C)) % C
            = (bi + 2 * C - (e + 1)) % C :=
          Nat.mod_mod_of_dvd _ hCd2
        have hs2 : (bi + 2 * C - (e + 1) + (e + 1)) % C = bi % C := by
          rw [show bi + 2 * C - (e + 1) + (e + 1) = bi + C * 2 by omega]
          exact Nat.add_mul_mod_self_left bi C 2
        have hs3 : (bi + 2 * C - (e + 1) + 0) % C
            = (bi + 2 * C - (e + 1) + (e + 1)) % C := by
          rw [Nat.add_zero, ← hs1, hstop, hs2, hbad]
      -- hs3 : offsets 0 and e+1 from the same start agree mod C
        have := mod_add_left_cancel (n := C)
          (a := bi + 2 * C - (e + 1)) (by omega) he hs3
        omega
      simp only [back_copy]
      rw [if_neg hne]
      have hstop' : ((u32dec bi % (2 * C) + 2 * C - e) % (2 * C)) % C
          = gfirst := by
        rw [hidx e (by omega)]
        exact hstop
      have ihr := ih (u32dec bi % (2 * C))
        (fun i => if i = bi then oldp (bi % C) else nq i) fuel
        (by omega) (Nat.mod_lt _ h2C) hstop' (by omega)
      refine ⟨?_, ?_, ?_⟩
      · rw [ihr.1, hidx e (by omega)]
      · intro j hj
        match j with
        | 0 =>
          have hout : ∀ j', j' ≤ e →
              bi ≠ (u32dec bi % (2 * C) + 2 * C - j') % (2 * C) := by
            intro j' hj'
            rw [hidx j' (by omega)]
            have hm : bi + 2 * C - (j' + 1) = bi + (2 * C - (j' + 1)) := by
              omega
            rw [hm]
            have hsh := mod_shift_ne (n := 2 * C) (a := bi)
              (m := 2 * C - (j' + 1)) (by omega) (by omega)
            rw [Nat.mod_eq_of_lt hbi] at hsh
            exact hsh
          rw [h0]
          exact (ihr.2.2 bi hout).trans (by simp)
        | j + 1 =>
          have hv := ihr.2.1 j (by omega)
          rw [hidx j (by omega)] at hv
          exact hv
      · intro x hx
        have hx' : ∀ j, j ≤ e →
            x ≠ (u32dec bi % (2 * C) + 2 * C - j) % (2 * C) := by
          intro j hj
          rw [hidx j (by omega)]
          exact hx (j + 1) (by omega)
        have hxbi : x ≠ bi := by
          have := hx 0 (by omega)
          rw [h0] at this
          exact this
        exact (ihr.2.2 x hx').trans (by simp [hxbi])

/-- Full characterization of `realloc_queue` on a coherent full queue with
lock slot `k`: capacity doubles, the count is untouched, the new
`first`/`last` bracket a span of `qcap` consecutive indices modulo the new
capacity carrying the old processes in age order, the lock keeps its index
(its new index equals `k`), and slot `k` holds the same process as
before. -/
theorem realloc_queue_closed (s : Sim) (k : Nat)
    (hC : 0 < s.qcap) (hk : k < s.qcap) (hf : s.first < s.qcap)
    (hl : s.last = (s.first + (s.qcap - 1)) % s.qcap)
    (hdvd : 2 * s.qcap ∣ u32Mod) :
    (realloc_queue s k).qcap = s.qcap * 2
    ∧ (realloc_queue s k).count = s.count
    ∧ (realloc_queue s k).first < 2 * s.qcap
    ∧ (realloc_queue s k).last
        = ((realloc_queue s k).first + (s.qcap - 1)) % (2 * s.qcap)
    ∧ (∀ a, a < s.qcap →
        (realloc_queue s k).procs
            (((realloc_queue s k).first + a) % (2 * s.qcap))
          = s.procs ((s.first + a) % s.qcap))
    ∧ (((realloc_queue s k).first + (k + s.qcap - s.first) % s.qcap)
          % (2 * s.qcap) = k)
    ∧ (realloc_queue s k).procs k = s.procs k := by
  have hmul : s.qcap * 2 = 2 * s.qcap := Nat.mul_comm _ _
  have h2C : 0 < 2 * s.qcap := by omega
  by_cases hkf : k = s.first
  · subst hkf
    have hrq : realloc_queue s s.first =
        { s with
          qcap := s.qcap * 2,
          procs := (fwd_copy s.procs s.qcap s.last s.qcap s.first
            (fun _ => zeroProc)).1,
          last := (fwd_copy s.procs s.qcap s.last s.qcap s.first
            (fun _ => zeroProc)).2 } := by
      simp [realloc_queue]
    obtain ⟨hF1, hF2, hF3⟩ := fwd_copy_closed s.procs s.qcap s.last hC
      (s.qcap - 1) s.first (fun _ => zeroProc) s.qcap (by omega) hl.symm
      (by omega)
    rw [hrq]
    refine ⟨rfl, rfl, ?_, ?_, ?_, ?_, ?_⟩
    · show s.first < 2 * s.qcap
      omega
    · show (fwd_copy s.procs s.qcap s.last s.qcap s.first
          (fun _ => zeroProc)).2 = (s.first + (s.qcap - 1)) % (2 * s.qcap)
      rw [hF1, Nat.mod_eq_of_lt (by omega)]
    · intro a ha
      show (fwd_copy s.procs s.qcap s.last s.qcap s.first
          (fun _ => zeroProc)).1 ((s.first + a) % (2 * s.qcap))
        = s.procs ((s.first + a) % s.qcap)
      rw [Nat.mod_eq_of_lt (by omega)]
      exact hF2 a (by omega)
    · show (s.first + (s.first + s.qcap - s.first) % s.qcap)
          % (2 * s.qcap) = s.first
      rw [show s.first + s.qcap - s.first = s.qcap by omega, Nat.mod_self,
        Nat.add_zero, Nat.mod_eq_of_lt (by omega)]
    · show (fwd_copy s.procs s.qcap s.last s.qcap s.first
          (fun _ => zeroProc)).1 s.first = s.procs s.first
      have hv := hF2 0 (by omega)
      rw [Nat.add_zero] at hv
      rw [hv, Nat.mod_eq_of_lt hk]
  · obtain ⟨t, ht⟩ : ∃ t, t = (k + s.qcap - s.first) % s.qcap := ⟨_, rfl⟩
    have htC : t < s.qcap := by rw [ht]; exact Nat.mod_lt _ hC
    have hkft : (s.first + t) % s.qcap = k := by
      rw [ht, Nat.add_mod_mod,
        show s.first + (k + s.qcap - s.first) = k + s.qcap by omega,
        Nat.add_mod_right, Nat.mod_eq_of_lt hk]
    have ht0 : 0 < t := by
      rcases Nat.eq_zero_or_pos t with h0 | h0
      · exfalso
        apply hkf
        rw [h0, Nat.add_zero, Nat.mod_eq_of_lt hf] at hkft
        exact hkft.symm
      · exact h0
    have hfwdstop : (k + (s.qcap - 1 - t)) % s.qcap = s.last := by
      rw [← hkft, Nat.mod_add_mod,
        show s.first + t + (s.qcap - 1 - t)
          = s.first + (s.qcap - 1) by omega, ← hl]
    obtain ⟨hF1, hF2, hF3⟩ := fwd_copy_closed s.procs s.qcap s.last hC
      (s.qcap - 1 - t) k (fun _ => zeroProc) s.qcap (by omega) hfwdstop
      (by omega)
    have hbi : u32dec k % (2 * s.qcap)
        = (k + 2 * s.qcap - 1) % (2 * s.qcap) :=
      u32dec_mod (2 * s.qcap) k hdvd (by omega)
    have hbj : ∀ j, j + 1 ≤ 2 * s.qcap →
        (u32dec k % (2 * s.qcap) + 2 * s.qcap - j) % (2 * s.qcap)
          = (k + 2 * s.qcap - (j + 1)) % (2 * s.qcap) := by
      intro j hj
      rw [show u32dec k % (2 * s.qcap) + 2 * s.qcap - j
          = u32dec k % (2 * s.qcap) + (2 * s.qcap - j) by omega,
        hbi, Nat.mod_add_mod,
        show k + 2 * s.qcap - 1 + (2 * s.qcap - j)
          = (k + 2 * s.qcap - (j + 1)) + 2 * s.qcap by omega,
        Nat.add_mod_right]
    have hbback : (u32dec k % (2 * s.qcap) + 2 * s.qcap - (t - 1))
        % (2 * s.qcap) = (k + 2 * s.qcap - t) % (2 * s.qcap) := by
      rw [hbj (t - 1) (by omega), show t - 1 + 1 = t by omega]
    have hCd2 : s.qcap ∣ 2 * s.qcap := dvd_mul_left s.qcap 2
    have hbstop : ((u32dec k % (2 * s.qcap) + 2 * s.qcap - (t - 1))
        % (2 * s.qcap)) % s.qcap = s.first := by
      rw [hbback, Nat.mod_mod_of_dvd _ hCd2,
        show k + 2 * s.qcap - t = k + (2 * s.qcap - t) by omega,
        ← hkft, Nat.mod_add_mod,
        show s.first + t + (2 * s.qcap - t)
          = s.first + s.qcap * 2 by omega,
        Nat.add_mul_mod_self_left, Nat.mod_eq_of_lt hf]
    obtain ⟨hB1, hB2, hB3⟩ := back_copy_closed s.procs s.qcap s.first hC
      hdvd (t - 1) (u32dec k % (2 * s.qcap))
      (fwd_copy s.procs s.qcap s.last s.qcap k (fun _ => zeroProc)).1
      s.qcap (by omega) (Nat.mod_lt _ h2C) hbstop (by omega)
    have hfirsteq : (back_copy s.procs s.qcap (2 * s.qcap) s.first s.qcap
        (u32dec k % (2 * s.qcap))
        (fwd_copy s.procs s.qcap s.last s.qcap k (fun _ => zeroProc)).1).2
          = (k + 2 * s.qcap - t) % (2 * s.qcap) :=
      hB1.trans hbback
    have hrq : realloc_queue s k =
        { s with
          qcap := s.qcap * 2,
          procs := (back_copy s.procs s.qcap (s.qcap * 2) s.first s.qcap
            (u32dec k % (s.qcap * 2))
            (fwd_copy s.procs s.qcap s.last s.qcap k
              (fun _ => zeroProc)).1).1,
          last := (fwd_copy s.procs s.qcap s.last s.qcap k
            (fun _ => zeroProc)).2,
          first := (back_copy s.procs s.qcap (s.qcap * 2) s.first s.qcap
            (u32dec k % (s.qcap * 2))
            (fwd_copy s.procs s.qcap s.last s.qcap k
              (fun _ => zeroProc)).1).2 } := by
      simp [realloc_queue, hkf]
    rw [hmul] at hrq
    rw [hrq]
    refine ⟨hmul.symm, rfl, ?_, ?_, ?_, ?_, ?_⟩
    · show (back_copy s.procs s.qcap (2 * s.qcap) s.first s.qcap
          (u32dec k % (2 * s.qcap))
          (fwd_copy s.procs s.qcap s.last s.qcap k
            (fun _ => zeroProc)).1).2 < 2 * s.qcap
      rw [hB1]
      exact Nat.mod_lt _ h2C
    · show (fwd_copy s.procs s.qcap s.last s.qcap k
          (fun _ => zeroProc)).2
        = ((back_copy s.procs s.qcap (2 * s.qcap) s.first s.qcap
            (u32dec k % (2 * s.qcap))
            (fwd_copy s.procs s.qcap s.last s.qcap k
              (fun _ => zeroProc)).1).2 + (s.qcap - 1)) % (2 * s.qcap)
      rw [hF1, hfirsteq, Nat.mod_add_mod,
        show k + 2 * s.qcap - t + (s.qcap - 1)
          = (k + (s.qcap - 1 - t)) + 2 * s.qcap by omega,
        Nat.add_mod_right, Nat.mod_eq_of_lt (by omega)]
    · intro a ha
      show (back_copy s.procs s.qcap (2 * s.qcap) s.first s.qcap
          (u32dec k % (2 * s.qcap))
          (fwd_copy s.procs s.qcap s.last s.qcap k
            (fun _ => zeroProc)).1).1
          (((back_copy s.procs s.qcap (2 * s.qcap) s.first s.qcap
            (u32dec k % (2 * s.qcap))
            (fwd_copy s.procs s.qcap s.last s.qcap k
              (fun _ => zeroProc)).1).2 + a) % (2 * s.qcap))
        = s.procs ((s.first + a) % s.qcap)
      rw [hfirsteq, Nat.mod_add_mod]
      by_cases hat : a ≤ t - 1
      · have hv := hB2 (t - 1 - a) (by omega)
        rw [hbj (t - 1 - a) (by omega),
          show t - 1 - a + 1 = t - a by omega,
          show k + 2 * s.qcap - (t - a)
            = k + 2 * s.qcap - t + a by omega] at hv
        rw [hv, Nat.mod_mod_of_dvd _ hCd2,
          show k + 2 * s.qcap - t + a
            = k + (2 * s.qcap - t + a) by omega,
          ← hkft, Nat.mod_add_mod,
          show s.first + t + (2 * s.qcap - t + a)
            = (s.first + a) + s.qcap * 2 by omega,
          Nat.add_mul_mod_self_left]
      · have hidx2 : (k + 2 * s.qcap - t + a) % (2 * s.qcap)
            = k + (a - t) := by
          rw [show k + 2 * s.qcap - t + a
              = (k + (a - t)) + 2 * s.qcap by omega,
            Nat.add_mod_right, Nat.mod_eq_of_lt (by omega)]
        rw [hidx2]
        have hout : ∀ j, j ≤ t - 1 →
            k + (a - t) ≠ (u32dec k % (2 * s.qcap) + 2 * s.qcap - j)
              % (2 * s.qcap) := by
          intro j hj
          rw [hbj j (by omega)]
          have hsh := mod_shift_ne (n := 2 * s.qcap) (a := k + (a - t))
            (m := 2 * s.qcap - (j + 1) - (a - t)) (by omega) (by omega)
          rw [Nat.mod_eq_of_lt (by omega)] at hsh
          rw [show k + (a - t) + (2 * s.qcap - (j + 1) - (a - t))
            = k + 2 * s.qcap - (j + 1) by omega] at hsh
          exact hsh
        rw [hB3 (k + (a - t)) hout, hF2 (a - t) (by omega),
          ← hkft, Nat.mod_add_mod,
          show s.first + t + (a - t) = s.first + a by omega]
    · show ((back_copy s.procs s.qcap (2 * s.qcap) s.first s.qcap
          (u32dec k % (2 * s.qcap))
          (fwd_copy s.procs s.qcap s.last s.qcap k
            (fun _ => zeroProc)).1).2
            + (k + s.qcap - s.first) % s.qcap) % (2 * s.qcap) = k
      rw [← ht, hfirsteq, Nat.mod_add_mod,
        show k + 2 * s.qcap - t + t = k + 2 * s.qcap by omega,
        Nat.add_mod_right, Nat.mod_eq_of_lt (by omega)]
    · show (back_copy s.procs s.qcap (2 * s.qcap) s.first s.qcap
          (u32dec k % (2 * s.qcap))
          (fwd_copy s.procs s.qcap s.last s.qcap k
            (fun _ => zeroProc)).1).1 k = s.procs k
      have hout0 : ∀ j, j ≤ t - 1 →
          k ≠ (u32dec k % (2 * s.qcap) + 2 * s.qcap - j)
            % (2 * s.qcap) := by
        intro j hj
        rw [hbj j (by omega)]
        have hsh := mod_shift_ne (n := 2 * s.qcap) (a := k)
          (m := 2 * s.qcap - (j + 1)) (by omega) (by omega)
        rw [Nat.mod_eq_of_lt (by omega)] at hsh
        rw [show k + (2 * s.qcap - (j + 1))
          = k + 2 * s.qcap - (j + 1) by omega] at hsh
        exact hsh
      rw [hB3 k hout0]
      have hv := hF2 0 (by omega)
      rw [Nat.add_zero] at hv
      rw [hv, Nat.mod_eq_of_lt hk]

/-- **C2.** A queue reallocation triggered while the queue is full
(`count = capacity`) with lock slot `k` — in particular a SPLT executed by
the process in slot `k` — leaves the locked process at index `k` of the
doubled queue (index `k` is exactly the slot of its original age rank),
and updates `first`/`last` so that the live processes occupy the
consecutive indices `first .. last` modulo the new capacity in their
original age order. -/
theorem realloc_queue_preserves_lock_and_age_order (s : Sim) (k : Nat)
    (hfull : s.count = s.qcap)
    (hC : 0 < s.qcap) (hk : k < s.qcap) (hf : s.first < s.qcap)
    (hl : s.last = (s.first + (s.qcap - 1)) % s.qcap)
    (hdvd : 2 * s.qcap ∣ u32Mod) :
    (realloc_queue s k).procs k = s.procs k
    ∧ (realloc_queue s k).qcap = s.qcap * 2
    ∧ (realloc_queue s k).count = s.qcap
    ∧ (((realloc_queue s k).first + (k + s.qcap - s.first) % s.qcap)
        % (2 * s.qcap) = k)
    ∧ (realloc_queue s k).first < 2 * s.qcap
    ∧ (realloc_queue s k).last
        = ((realloc_queue s k).first + (s.qcap - 1)) % (2 * s.qcap)
    ∧ (∀ a, a < s.qcap →
        (realloc_queue s k).procs
            (((realloc_queue s k).first + a) % (2 * s.qcap))
          = s.procs ((s.first + a) % s.qcap)) := by
  obtain ⟨h1, h2, h3, h4, h5, h6, h7⟩ :=
    realloc_queue_closed s k hC hk hf hl hdvd
  exact ⟨h7, h1, by rw [h2, hfull], h6, h3, h4, h5⟩

theorem realloc_queue_preserves_lock_and_age_order_witness :
    (realloc_queue fullQueueSim 0).procs 0 = fullQueueSim.procs 0
    ∧ (realloc_queue fullQueueSim 0).qcap = 4
    ∧ (realloc_queue fullQueueSim 0).last
        = ((realloc_queue fullQueueSim 0).first + 1) % 4 := by
  obtain ⟨h1, h2, h3, h4, h5, h6, h7⟩ :=
    realloc_queue_preserves_lock_and_age_order fullQueueSim 0 rfl
      (by decide) (by decide) (by decide) (by decide) (by decide)
  exact ⟨h1, h2, h6⟩

/-! ## The tick iteration order and queue growth (C4) -/

/-- Closed form of the visit projection: started `m` age steps above
`first`, the loop emits the slots of ages `m - 1, m - 2, …, 0`. -/
theorem cycle_visit_loop_closed (cap first : Nat) (hcap : 0 < cap)
    (hf : first < cap) (hdvd : cap ∣ u32Mod) :
    ∀ m fuel, m < cap → m ≤ fuel →
      cycle_visit_loop cap first ((first + m) % cap) fuel
        = (List.range m).map (fun i => (first + (m - 1 - i)) % cap) := by
  intro m
  induction m with
  | zero =>
    intro fuel hm hfuel
    match fuel with
    | 0 => rfl
    | fuel + 1 =>
      simp only [cycle_visit_loop]
      rw [if_pos]
      · simp
      · rw [Nat.add_zero, Nat.mod_eq_of_lt hf]
  | succ m ih =>
    intro fuel hfm hfuel
    match fuel, hfuel with
    | fuel + 1, hfuel =>
      have hne : (first + (m + 1)) % cap ≠ first := by
        intro hbad
        have h0 : (first + (m + 1)) % cap = (first + 0) % cap := by
          rw [hbad, Nat.add_zero, Nat.mod_eq_of_lt hf]
        have := mod_add_left_cancel (n := cap) (a := first) hfm
          (by omega) h0
        omega
      simp only [cycle_visit_loop]
      rw [if_neg hne]
      have hstep : u32dec ((first + (m + 1)) % cap) % cap
          = (first + m) % cap := by
        rw [u32dec_mod cap _ hdvd (Nat.mod_lt _ hcap),
          show (first + (m + 1)) % cap + cap - 1
            = (first + (m + 1)) % cap + (cap - 1) by omega,
          Nat.mod_add_mod,
          show first + (m + 1) + (cap - 1) = (first + m) + cap by omega,
          Nat.add_mod_right]
      rw [hstep, ih fuel (by omega) (by omega)]
      have hFs : (fun i => (first + (m + 1 - 1 - i)) % cap) ∘ Nat.succ
          = (fun i => (first + (m - 1 - i)) % cap) := by
        funext i
        simp only [Function.comp_apply]
        rw [show m + 1 - 1 - Nat.succ i = m - 1 - i by omega]
      have hF0 : first + (m + 1 - 1 - 0) = first + m := by omega
      simp only [List.range_succ_eq_map, List.map_cons, List.map_map, hFs,
        hF0]

/-- The full visit order of a tick on a coherent queue: `last` (the
youngest) first, then the slots of strictly decreasing age down to
`first`. -/
theorem sal_proc_cycle_visits_closed (s : Sim) (hcap : 0 < s.qcap)
    (hf : s.first < s.qcap) (hcnt : 0 < s.count)
    (hcnt2 : s.count ≤ s.qcap)
    (hl : s.last = (s.first + (s.count - 1)) % s.qcap)
    (hdvd : s.qcap ∣ u32Mod) :
    sal_proc_cycle_visits s
      = s.last :: (List.range (s.count - 1)).map
          (fun i => (s.first + (s.count - 2 - i)) % s.qcap) := by
  simp only [sal_proc_cycle_visits]
  rw [if_pos (show s.count ≠ 0 by omega)]
  conv =>
    lhs
    rw [hl]
  rw [cycle_visit_loop_closed s.qcap s.first hcap hf hdvd (s.count - 1)
    s.count (by omega) (by omega)]
  have he : (fun i => (s.first + (s.count - 1 - 1 - i)) % s.qcap)
      = (fun i => (s.first + (s.count - 2 - i)) % s.qcap) := by
    funext i
    rw [show s.count - 1 - 1 - i = s.count - 2 - i by omega]
  rw [he, hl]

/-- Taking a queue slot while the queue is not full: the grant is the slot
one past `last` — outside the live span — and the queue contents are
untouched. -/
theorem get_new_proc_not_full (s : Sim) (p : Nat)
    (_hcap : 0 < s.qcap) (hcnt : 0 < s.count) (hne : s.count < s.qcap)
    (hl : s.last = (s.first + (s.count - 1)) % s.qcap)
    (hdvd : s.qcap ∣ u32Mod) :
    (get_new_proc_from_queue s p).2 = (s.first + s.count) % s.qcap
    ∧ (get_new_proc_from_queue s p).1.count = s.count + 1
    ∧ (get_new_proc_from_queue s p).1.first = s.first
    ∧ (get_new_proc_from_queue s p).1.qcap = s.qcap
    ∧ (get_new_proc_from_queue s p).1.last = (s.first + s.count) % s.qcap
    ∧ (get_new_proc_from_queue s p).1.procs = s.procs
    ∧ (∀ a, a < s.count →
        (s.first + a) % s.qcap ≠ (s.first + s.count) % s.qcap) := by
  have hcc : ¬ s.count = s.qcap := by omega
  have hll : (s.last + 1) % u32Mod % s.qcap
      = (s.first + s.count) % s.qcap := by
    rw [Nat.mod_mod_of_dvd _ hdvd, hl, Nat.mod_add_mod,
      show s.first + (s.count - 1) + 1 = s.first + s.count by omega]
  have hres : get_new_proc_from_queue s p
      = ({ { s with
            count := s.count + 1 } with
          last := (s.last + 1) % u32Mod % s.qcap },
        (s.last + 1) % u32Mod % s.qcap) := by
    simp only [get_new_proc_from_queue, if_neg hcc]
    rw [if_neg (show ¬ s.count + 1 = 1 by omega)]
  rw [hres]
  refine ⟨hll, rfl, rfl, rfl, hll, rfl, ?_⟩
  intro a ha
  intro hbad
  have := mod_add_left_cancel (n := s.qcap) (a := s.first)
    (by omega) (by omega) hbad
  omega

/-- Taking a queue slot while the queue is full: the queue is first
doubled around the lock, then the grant is the slot one past the relocated
`last` — distinct from every relocated live slot; the relocated processes
(the lock in particular) are untouched. -/
theorem get_new_proc_full (s : Sim) (p : Nat)
    (hC : 0 < s.qcap) (hp : p < s.qcap) (hf : s.first < s.qcap)
    (hfull : s.count = s.qcap)
    (hl : s.last = (s.first + (s.qcap - 1)) % s.qcap)
    (hdvd : 2 * s.qcap ∣ u32Mod) :
    (get_new_proc_from_queue s p).1.procs = (realloc_queue s p).procs
    ∧ (get_new_proc_from_queue s p).1.first = (realloc_queue s p).first
    ∧ (get_new_proc_from_queue s p).1.qcap = s.qcap * 2
    ∧ (get_new_proc_from_queue s p).1.count = s.qcap + 1
    ∧ (get_new_proc_from_queue s p).2
        = ((realloc_queue s p).first + s.qcap) % (2 * s.qcap)
    ∧ (get_new_proc_from_queue s p).1.last
        = ((realloc_queue s p).first + s.qcap) % (2 * s.qcap)
    ∧ (∀ a, a < s.qcap →
        ((realloc_queue s p).first + a) % (2 * s.qcap)
          ≠ ((realloc_queue s p).first + s.qcap) % (2 * s.qcap)) := by
  obtain ⟨hq1, hq2, hq3, hq4, hq5, hq6, hq7⟩ :=
    realloc_queue_closed s p hC hp hf hl hdvd
  have hcc : (realloc_queue s p).count = s.qcap := by rw [hq2, hfull]
  have hqq : (realloc_queue s p).qcap = 2 * s.qcap := by
    rw [hq1]
    exact Nat.mul_comm _ _
  have hdd : (realloc_queue s p).qcap ∣ u32Mod := by
    rw [hqq]
    exact hdvd
  have hll : ((realloc_queue s p).last + 1) % u32Mod
        % (realloc_queue s p).qcap
      = ((realloc_queue s p).first + s.qcap) % (2 * s.qcap) := by
    rw [Nat.mod_mod_of_dvd _ hdd, hqq, hq4, Nat.mod_add_mod,
      show (realloc_queue s p).first + (s.qcap - 1) + 1
        = (realloc_queue s p).first + s.qcap by omega]
  have hres : get_new_proc_from_queue s p
      = ({ { realloc_queue s p with
            count := (realloc_queue s p).count + 1 } with
          last := ((realloc_queue s p).last + 1) % u32Mod
            % (realloc_queue s p).qcap },
        ((realloc_queue s p).last + 1) % u32Mod
          % (realloc_queue s p).qcap) := by
    simp only [get_new_proc_from_queue, if_pos hfull]
    rw [if_neg]
    rw [hcc]
    omega
  rw [hres]
  refine ⟨rfl, rfl, ?_, ?_, hll, hll, ?_⟩
  · show (realloc_queue s p).qcap = s.qcap * 2
    exact hq1
  · show (realloc_queue s p).count + 1 = s.qcap + 1
    rw [hcc]
  · intro a ha hbad
    have := mod_add_left_cancel (n := 2 * s.qcap)
      (a := (realloc_queue s p).first) (by omega) (by omega) hbad
    omega

/-- **C4.** A process tick executes slots in reverse queue order, from
`last` (the youngest) down to `first` modulo capacity; a process born by
SPLT during the tick takes the slot one past `last` — outside that
iteration range, so it executes nothing until the next tick — both when
the queue has room and when the SPLT (executed by slot `p`) forces a
mid-iteration reallocation, which relocates the live span without touching
the parent's slot index `p`. -/
theorem tick_reverse_order_and_splt_child_not_executed (s : Sim) (p : Nat)
    (hcap : 0 < s.qcap) (hf : s.first < s.qcap) (hcnt : 0 < s.count)
    (hcnt2 : s.count ≤ s.qcap)
    (hl : s.last = (s.first + (s.count - 1)) % s.qcap)
    (hdvd2 : 2 * s.qcap ∣ u32Mod) :
    sal_proc_cycle_visits s
      = s.last :: (List.range (s.count - 1)).map
          (fun i => (s.first + (s.count - 2 - i)) % s.qcap)
    ∧ (s.count < s.qcap →
        (get_new_proc_from_queue s p).2 = (s.first + s.count) % s.qcap
        ∧ (get_new_proc_from_queue s p).1.procs = s.procs
        ∧ (∀ a, a < s.count →
            (s.first + a) % s.qcap ≠ (get_new_proc_from_queue s p).2))
    ∧ (s.count = s.qcap → p < s.qcap →
        (get_new_proc_from_queue s p).1.procs p = s.procs p
        ∧ (get_new_proc_from_queue s p).2
            = ((realloc_queue s p).first + s.qcap) % (2 * s.qcap)
        ∧ (∀ a, a < s.qcap →
            ((realloc_queue s p).first + a) % (2 * s.qcap)
              ≠ (get_new_proc_from_queue s p).2)
        ∧ (∀ a, a < s.qcap →
            (get_new_proc_from_queue s p).1.procs
                (((realloc_queue s p).first + a) % (2 * s.qcap))
              = s.procs ((s.first + a) % s.qcap))) := by
  have hdvd1 : s.qcap ∣ u32Mod :=
    dvd_trans (dvd_mul_left s.qcap 2) hdvd2
  refine ⟨sal_proc_cycle_visits_closed s hcap hf hcnt hcnt2 hl hdvd1,
    ?_, ?_⟩
  · intro hlt
    obtain ⟨hn1, hn2, hn3, hn4, hn5, hn6, hn7⟩ :=
      get_new_proc_not_full s p hcap hcnt hlt hl hdvd1
    refine ⟨hn1, hn6, ?_⟩
    intro a ha
    rw [hn1]
    exact hn7 a ha
  · intro hfull hp
    have hl' : s.last = (s.first + (s.qcap - 1)) % s.qcap := by
      rw [hl, hfull]
    obtain ⟨hg1, hg2, hg3, hg4, hg5, hg6, hg7⟩ :=
      get_new_proc_full s p hcap hp hf hfull hl' hdvd2
    obtain ⟨hr1, hr2, hr3, hr4, hr5, hr6, hr7⟩ :=
      realloc_queue_closed s p hcap hp hf hl' hdvd2
    refine ⟨?_, hg5, ?_, ?_⟩
    · rw [hg1]
      exact hr7
    · intro a ha
      rw [hg5]
      exact hg7 a ha
    · intro a ha
      rw [hg1]
      exact hr5 a ha

theorem tick_reverse_order_and_splt_child_not_executed_witness :
    sal_proc_cycle_visits lastSlotSim = [1]
    ∧ (get_new_proc_from_queue lastSlotSim 1).2 = 0
    ∧ (get_new_proc_from_queue fullQueueSim 0).1.procs 0
        = fullQueueSim.procs 0
    ∧ (get_new_proc_from_queue fullQueueSim 0).2
        = ((realloc_queue fullQueueSim 0).first + 2) % 4 := by
  obtain ⟨hv, hn, -⟩ :=
    tick_reverse_order_and_splt_child_not_executed lastSlotSim 1
      (by decide) (by decide) (by decide) (by decide) (by decide)
      (by decide)
  obtain ⟨-, -, hfl⟩ :=
    tick_reverse_order_and_splt_child_not_executed fullQueueSim 0
      (by decide) (by decide) (by decide) (by decide) (by decide)
      (by decide)
  obtain ⟨hn1, -, -⟩ := hn (by decide)
  obtain ⟨hf1, hf2, -, -⟩ := hfl (by decide) (by decide)
  exact ⟨hv, hn1, hf1, hf2⟩

/-! ## The reap loop (C5) -/

/-- The flag-clearing loop of `free_memory_block`: on a block whose cells
are all allocated it clears exactly those flags, lowers
`g_allocated_count` by the block size, and touches nothing else. -/
theorem free_block_loop_spec : ∀ n s address,
    (∀ x, address ≤ x → x < address + n → s.alloc x = true) →
    (∀ x, address ≤ x → x < address + n →
        (free_block_loop s address n).alloc x = false)
    ∧ (∀ x, ¬ (address ≤ x ∧ x < address + n) →
        (free_block_loop s address n).alloc x = s.alloc x)
    ∧ (free_block_loop s address n).allocCount = s.allocCount - n
    ∧ (free_block_loop s address n).procs = s.procs
    ∧ (free_block_loop s address n).count = s.count
    ∧ (free_block_loop s address n).first = s.first
    ∧ (free_block_loop s address n).last = s.last
    ∧ (free_block_loop s address n).qcap = s.qcap
    ∧ (free_block_loop s address n).memCap = s.memCap
    ∧ (free_block_loop s address n).memSize = s.memSize := by
  intro n
  induction n with
  | zero =>
    intro s address hall
    refine ⟨?_, ?_, rfl, rfl, rfl, rfl, rfl, rfl, rfl, rfl⟩
    · intro x h1 h2
      exact absurd h2 (by omega)
    · intro x hx
      rfl
  | succ n ih =>
    intro s address hall
    have ha : s.alloc address = true := hall address (by omega) (by omega)
    have hstep : free_block_loop s address (n + 1)
        = free_block_loop
            { s with
              alloc := fun x => if x = address then false else s.alloc x,
              allocCount := s.allocCount - 1 }
            (address + 1) n := by
      simp only [free_block_loop]
      rw [sal_mem_unset_allocated, if_pos ha]
    have hpre : ∀ x, address + 1 ≤ x → x < address + 1 + n →
        ({ s with
          alloc := fun x => if x = address then false else s.alloc x,
          allocCount := s.allocCount - 1 } : Sim).alloc x = true := by
      intro x h1 h2
      show (if x = address then false else s.alloc x) = true
      rw [if_neg (by omega)]
      exact hall x (by omega) (by omega)
    obtain ⟨ih1, ih2, ih3, ih4, ih5, ih6, ih7, ih8, ih9, ih10⟩ :=
      ih { s with
          alloc := fun x => if x = address then false else s.alloc x,
          allocCount := s.allocCount - 1 }
        (address + 1) hpre
    rw [hstep]
    refine ⟨?_, ?_, ?_, ih4, ih5, ih6, ih7, ih8, ih9, ih10⟩
    · intro x h1 h2
      by_cases hx : x = address
      · subst hx
        rw [ih2 x (by omega)]
        simp
      · exact ih1 x (by omega) (by omega)
    · intro x hx
      rw [ih2 x (by omega)]
      show (if x = address then false else s.alloc x) = s.alloc x
      rw [if_neg (by omega)]
    · rw [ih3]
      show s.allocCount - 1 - n = s.allocCount - (n + 1)
      omega

/-- `free_memory_owned_by` on a process with in-bounds, internally
disjoint, fully allocated blocks: it clears exactly the flags of the owned
cells, lowers `g_allocated_count` by the owned size, and touches nothing
else. -/
theorem free_memory_owned_by_spec (s : Sim) (pidx : Nat)
    (hb1 : (s.procs pidx).mb1a + (s.procs pidx).mb1s ≤ s.memSize)
    (hb2 : (s.procs pidx).mb2s ≠ 0 →
      (s.procs pidx).mb2a + (s.procs pidx).mb2s ≤ s.memSize)
    (hint : (s.procs pidx).mb2s ≠ 0 →
      (s.procs pidx).mb1a + (s.procs pidx).mb1s ≤ (s.procs pidx).mb2a
      ∨ (s.procs pidx).mb2a + (s.procs pidx).mb2s ≤ (s.procs pidx).mb1a)
    (hal : ∀ x, x < s.memSize → owns (s.procs pidx) x →
      s.alloc x = true) :
    (∀ x, owns (s.procs pidx) x →
        (free_memory_owned_by s pidx).alloc x = false)
    ∧ (∀ x, ¬ owns (s.procs pidx) x →
        (free_memory_owned_by s pidx).alloc x = s.alloc x)
    ∧ (free_memory_owned_by s pidx).allocCount
        = s.allocCount - owned_size (s.procs pidx)
    ∧ (free_memory_owned_by s pidx).procs = s.procs
    ∧ (free_memory_owned_by s pidx).count = s.count
    ∧ (free_memory_owned_by s pidx).first = s.first
    ∧ (free_memory_owned_by s pidx).last = s.last
    ∧ (free_memory_owned_by s pidx).qcap = s.qcap
    ∧ (free_memory_owned_by s pidx).memCap = s.memCap
    ∧ (free_memory_owned_by s pidx).memSize = s.memSize := by
  obtain ⟨f1, f2, f3, f4, f5, f6, f7, f8, f9, f10⟩ :=
    free_block_loop_spec (s.procs pidx).mb1s s (s.procs pidx).mb1a
      (fun x h1 h2 => hal x (by omega) (Or.inl ⟨h1, h2⟩))
  by_cases hm2 : (s.procs pidx).mb2s = 0
  · have hres : free_memory_owned_by s pidx
        = free_block_loop s (s.procs pidx).mb1a (s.procs pidx).mb1s := by
      simp [free_memory_owned_by, free_memory_block, hm2]
    rw [hres]
    refine ⟨?_, ?_, ?_, f4, f5, f6, f7, f8, f9, f10⟩
    · intro x hx
      rcases hx with hx1 | hx2
      · exact f1 x hx1.1 hx1.2
      · exact absurd hx2.1 (by simp [hm2])
    · intro x hx
      apply f2
      intro hx1
      exact hx (Or.inl hx1)
    · rw [f3]
      show s.allocCount - (s.procs pidx).mb1s
        = s.allocCount - owned_size (s.procs pidx)
      rw [owned_size, if_neg (by simp [hm2])]
      omega
  · have hres : free_memory_owned_by s pidx
        = free_block_loop
            (free_block_loop s (s.procs pidx).mb1a (s.procs pidx).mb1s)
            (s.procs pidx).mb2a (s.procs pidx).mb2s := by
      simp [free_memory_owned_by, free_memory_block, hm2]
    have hpre2 : ∀ x, (s.procs pidx).mb2a ≤ x →
        x < (s.procs pidx).mb2a + (s.procs pidx).mb2s →
        (free_block_loop s (s.procs pidx).mb1a
          (s.procs pidx).mb1s).alloc x = true := by
      intro x h1 h2
      rw [f2 x (by rcases hint hm2 with h | h <;> omega)]
      exact hal x (by have := hb2 hm2; omega) (Or.inr ⟨hm2, h1, h2⟩)
    obtain ⟨g1, g2, g3, g4, g5, g6, g7, g8, g9, g10⟩ :=
      free_block_loop_spec (s.procs pidx).mb2s
        (free_block_loop s (s.procs pidx).mb1a (s.procs pidx).mb1s)
        (s.procs pidx).mb2a hpre2
    rw [hres]
    refine ⟨?_, ?_, ?_, g4.trans f4, g5.trans f5, g6.trans f6,
      g7.trans f7, g8.trans f8, g9.trans f9, g10.trans f10⟩
    · intro x hx
      rcases hx with hx1 | hx2
      · rw [g2 x (by rcases hint hm2 with h | h <;> omega)]
        exact f1 x hx1.1 hx1.2
      · exact g1 x hx2.2.1 hx2.2.2
    · intro x hx
      have hx1 : ¬ ((s.procs pidx).mb1a ≤ x
          ∧ x < (s.procs pidx).mb1a + (s.procs pidx).mb1s) := by
        intro h
        exact hx (Or.inl h)
      have hx2 : ¬ ((s.procs pidx).mb2a ≤ x
          ∧ x < (s.procs pidx).mb2a + (s.procs pidx).mb2s) := by
        intro h
        exact hx (Or.inr ⟨hm2, h⟩)
      rw [g2 x hx2]
      exact f2 x hx1
    · rw [g3, f3]
      show s.allocCount - (s.procs pidx).mb1s - (s.procs pidx).mb2s
        = s.allocCount - owned_size (s.procs pidx)
      rw [owned_size, if_pos hm2]
      omega

/-- `proc_kill` on a coherent queue with a live process: it frees both
memory blocks of the process in slot `first` (and only those cells),
lowers `g_allocated_count` by their total size, zeroes the slot,
decrements `g_count`, and resets the queue to the sentinels when the
victim was the only live process, else advances `first` modulo
capacity. -/
theorem proc_kill_spec (s : Sim) (hinv : queue_inv s) (hcnt : 0 < s.count)
    (hdvd : s.qcap ∣ u32Mod) :
    (proc_kill s).count = s.count - 1
    ∧ (proc_kill s).procs s.first = zeroProc
    ∧ (∀ i, i ≠ s.first → (proc_kill s).procs i = s.procs i)
    ∧ (∀ x, owns (s.procs s.first) x → (proc_kill s).alloc x = false)
    ∧ (∀ x, ¬ owns (s.procs s.first) x →
        (proc_kill s).alloc x = s.alloc x)
    ∧ (proc_kill s).allocCount
        = s.allocCount - owned_size (s.procs s.first)
    ∧ (s.count = 1 →
        (proc_kill s).first = UINT32_MAX
        ∧ (proc_kill s).last = UINT32_MAX)
    ∧ (1 < s.count →
        (proc_kill s).first = (s.first + 1) % s.qcap
        ∧ (proc_kill s).last = s.last)
    ∧ (proc_kill s).qcap = s.qcap
    ∧ (proc_kill s).memCap = s.memCap
    ∧ (proc_kill s).memSize = s.memSize := by
  obtain ⟨hq, hcq, hshape, hlive, hzero, hblocks, hintd, hpair, hown,
    hsum⟩ := hinv
  obtain ⟨hf, hl⟩ := hshape hcnt
  have hslot0 : live_slot s 0 = s.first := by
    rw [live_slot, Nat.add_zero, Nat.mod_eq_of_lt hf]
  obtain ⟨hb1, hb2, hal⟩ := hblocks 0 hcnt
  rw [hslot0] at hb1 hb2 hal
  have hint := hintd 0 hcnt
  rw [hslot0] at hint
  obtain ⟨m1, m2, m3, m4, m5, m6, m7, m8, m9, m10⟩ :=
    free_memory_owned_by_spec s s.first hb1 hb2 hint hal
  have hcond : (free_memory_owned_by s s.first).first
      = (free_memory_owned_by s s.first).last ↔ s.count = 1 := by
    rw [m6, m7]
    constructor
    · intro hbad
      by_contra hne
      have h0 : (s.first + (s.count - 1)) % s.qcap
          = (s.first + 0) % s.qcap := by
        rw [← hl, ← hbad, Nat.add_zero, Nat.mod_eq_of_lt hf]
      have := mod_add_left_cancel (n := s.qcap) (a := s.first)
        (by omega) (by omega) h0
      omega
    · intro h1
      rw [hl, h1, show (1:Nat) - 1 = 0 from rfl, Nat.add_zero,
        Nat.mod_eq_of_lt hf]
  by_cases hc1 : s.count = 1
  · have hpk : proc_kill s
        = { free_memory_owned_by s s.first with
            procs := fun i =>
              if i = (free_memory_owned_by s s.first).first then zeroProc
              else (free_memory_owned_by s s.first).procs i,
            count := (free_memory_owned_by s s.first).count - 1,
            first := UINT32_MAX,
            last := UINT32_MAX } := by
      simp only [proc_kill, set_proc]
      rw [if_pos (hcond.mpr hc1)]
    rw [hpk]
    refine ⟨?_, ?_, ?_, ?_, ?_, ?_, ?_, ?_, ?_, ?_, ?_⟩
    · show (free_memory_owned_by s s.first).count - 1 = s.count - 1
      rw [m5]
    · show (if s.first = (free_memory_owned_by s s.first).first
          then zeroProc
          else (free_memory_owned_by s s.first).procs s.first) = zeroProc
      rw [m6, if_pos rfl]
    · intro i hi
      show (if i = (free_memory_owned_by s s.first).first then zeroProc
          else (free_memory_owned_by s s.first).procs i) = s.procs i
      rw [m6, if_neg hi, m4]
    · intro x hx
      exact m1 x hx
    · intro x hx
      exact m2 x hx
    · exact m3
    · intro h
      exact ⟨rfl, rfl⟩
    · intro h
      exact absurd hc1 (by omega)
    · exact m8
    · exact m9
    · exact m10
  · have hpk : proc_kill s
        = { free_memory_owned_by s s.first with
            procs := fun i =>
              if i = (free_memory_owned_by s s.first).first then zeroProc
              else (free_memory_owned_by s s.first).procs i,
            count := (free_memory_owned_by s s.first).count - 1,
            first := ((free_memory_owned_by s s.first).first + 1) % u32Mod
              % (free_memory_owned_by s s.first).qcap } := by
      simp only [proc_kill, set_proc]
      rw [if_neg (fun h => hc1 (hcond.mp h))]
    rw [hpk]
    refine ⟨?_, ?_, ?_, ?_, ?_, ?_, ?_, ?_, ?_, ?_, ?_⟩
    · show (free_memory_owned_by s s.first).count - 1 = s.count - 1
      rw [m5]
    · show (if s.first = (free_memory_owned_by s s.first).first
          then zeroProc
          else (free_memory_owned_by s s.first).procs s.first) = zeroProc
      rw [m6, if_pos rfl]
    · intro i hi
      show (if i = (free_memory_owned_by s s.first).first then zeroProc
          else (free_memory_owned_by s s.first).procs i) = s.procs i
      rw [m6, if_neg hi, m4]
    · intro x hx
      exact m1 x hx
    · intro x hx
      exact m2 x hx
    · exact m3
    · intro h
      exact absurd h hc1
    · intro h
      constructor
      · show ((free_memory_owned_by s s.first).first + 1) % u32Mod
            % (free_memory_owned_by s s.first).qcap
          = (s.first + 1) % s.qcap
        rw [m6, m8, Nat.mod_mod_of_dvd _ hdvd]
      · exact m7
    · exact m8
    · exact m9
    · exact m10

/-- Killing the oldest process preserves the queue invariant: the
remaining processes keep their slots, their age ranks drop by one, and the
allocation accounting stays exact. -/
theorem proc_kill_inv (s : Sim) (hinv : queue_inv s) (hcnt : 0 < s.count)
    (hdvd : s.qcap ∣ u32Mod) : queue_inv (proc_kill s) := by
  obtain ⟨k1, k2, k3, k4, k5, k6, k7, k8, k9, k10, k11⟩ :=
    proc_kill_spec s hinv hcnt hdvd
  obtain ⟨hq, hcq, hshape, hlive, hzero, hblocks, hintd, hpair, hown,
    hsum⟩ := hinv
  obtain ⟨hf, hl⟩ := hshape hcnt
  have hslot0 : live_slot s 0 = s.first := by
    rw [live_slot, Nat.add_zero, Nat.mod_eq_of_lt hf]
  have hinj : ∀ a, a < s.qcap → ∀ b, b < s.qcap →
      a ≠ b → live_slot s a ≠ live_slot s b := by
    intro a ha b hb hne hbad
    exact hne (mod_add_left_cancel (n := s.qcap) (a := s.first)
      ha hb hbad)
  have hfs : (fun a => owned_size (s.procs (live_slot s a))) ∘ Nat.succ
      = fun a => owned_size (s.procs (live_slot s (a + 1))) := by
    funext a
    rfl
  have hsum_split : ((List.range s.count).map
      (fun a => owned_size (s.procs (live_slot s a)))).sum
      = owned_size (s.procs s.first)
        + ((List.range (s.count - 1)).map
            (fun a => owned_size (s.procs (live_slot s (a + 1))))).sum := by
    conv_lhs => rw [show s.count = (s.count - 1) + 1 by omega]
    rw [List.range_succ_eq_map, List.map_cons, List.map_map,
      List.sum_cons, hfs, hslot0]
  by_cases hc1 : s.count = 1
  · -- the only process dies; the queue is empty afterwards
    have hcnt0 : (proc_kill s).count = 0 := by rw [k1, hc1]
    refine ⟨by rw [k9]; exact hq, by rw [k9]; omega,
      fun h => absurd h (by omega), fun a ha => absurd ha (by omega),
      ?_, fun a ha => absurd ha (by omega),
      fun a ha => absurd ha (by omega),
      fun a ha => absurd ha (by omega), ?_, ?_⟩
    · intro i hik _
      by_cases hif : i = s.first
      · rw [hif]
        exact k2
      · rw [k3 i hif]
        apply hzero i (by rw [k9] at hik; exact hik)
        intro a ha
        have ha0 : a = 0 := by omega
        rw [ha0, hslot0]
        exact fun h => hif h.symm
    · intro x hx hax
      exfalso
      by_cases hpx : owns (s.procs s.first) x
      · rw [k4 x hpx] at hax
        exact Bool.false_ne_true hax
      · rw [k5 x hpx] at hax
        obtain ⟨a, ha, hown'⟩ := hown x (by rw [k11] at hx; exact hx) hax
        have ha0 : a = 0 := by omega
        rw [ha0, hslot0] at hown'
        exact hpx hown'
    · rw [hcnt0, k6, hsum]
      rw [hc1] at hsum_split ⊢
      simp only [show (1:Nat) - 1 = 0 from rfl, List.range_zero,
        List.map_nil, List.sum_nil, Nat.add_zero] at hsum_split
      rw [hsum_split]
      simp
  · -- at least one process survives
    have hc2 : 1 < s.count := by omega
    obtain ⟨hk8f, hk8l⟩ := k8 hc2
    have hslot' : ∀ a, live_slot (proc_kill s) a = live_slot s (a + 1) := by
      intro a
      simp only [live_slot]
      rw [hk8f, k9, Nat.mod_add_mod,
        show s.first + 1 + a = s.first + (a + 1) by omega]
    have hslotne : ∀ a, a + 1 < s.count →
        live_slot s (a + 1) ≠ s.first := by
      intro a ha
      have := hinj (a + 1) (by omega) 0 (by omega) (by omega)
      rw [hslot0] at this
      exact this
    have hprocs' : ∀ a, a + 1 < s.count →
        (proc_kill s).procs (live_slot (proc_kill s) a)
          = s.procs (live_slot s (a + 1)) := by
      intro a ha
      rw [hslot' a, k3 _ (hslotne a ha)]
    refine ⟨by rw [k9]; exact hq, by rw [k9, k1]; omega, ?_, ?_, ?_,
      ?_, ?_, ?_, ?_, ?_⟩
    · intro hpos
      constructor
      · rw [hk8f, k9]
        exact Nat.mod_lt _ hq
      · rw [hk8l, hk8f, k9, k1, hl, Nat.mod_add_mod,
          show s.first + 1 + (s.count - 1 - 1)
            = s.first + (s.count - 1) by omega]
    · intro a ha
      rw [k1] at ha
      have hnf := hlive (a + 1) (by omega)
      intro hbad
      apply hnf
      rw [sal_proc_is_free] at hbad ⊢
      rw [hprocs' a (by omega)] at hbad
      exact hbad
    · intro i hik hout
      rw [k9] at hik
      by_cases hif : i = s.first
      · rw [hif]
        exact k2
      · rw [k3 i hif]
        apply hzero i hik
        intro a ha
        match a with
        | 0 =>
          rw [hslot0]
          exact fun h => hif h.symm
        | a + 1 =>
          have := hout a (by rw [k1]; omega)
          rw [hslot' a] at this
          exact this
    · intro a ha
      rw [k1] at ha
      rw [hprocs' a (by omega)]
      obtain ⟨hb1, hb2, hal⟩ := hblocks (a + 1) (by omega)
      refine ⟨by rw [k11]; exact hb1, by rw [k11]; exact hb2, ?_⟩
      intro x hx hox
      rw [k11] at hx
      have hnot0 : ¬ owns (s.procs s.first) x := by
        have := hpair (a + 1) (by omega) 0 (by omega) (by omega) x hx hox
        rw [hslot0] at this
        exact this
      rw [k5 x hnot0]
      exact hal x hx hox
    · intro a ha
      rw [k1] at ha
      rw [hprocs' a (by omega)]
      exact hintd (a + 1) (by omega)
    · intro a ha b hb hne x hx
      rw [k1] at ha hb
      rw [k11] at hx
      rw [hprocs' a (by omega), hprocs' b (by omega)]
      exact hpair (a + 1) (by omega) (b + 1) (by omega) (by omega) x hx
    · intro x hx hax
      rw [k11] at hx
      by_cases hpx : owns (s.procs s.first) x
      · rw [k4 x hpx] at hax
        exact absurd hax Bool.false_ne_true
      · rw [k5 x hpx] at hax
        obtain ⟨a, ha, hown'⟩ := hown x hx hax
        match a with
        | 0 =>
          rw [hslot0] at hown'
          exact absurd hown' hpx
        | a + 1 =>
          refine ⟨a, by rw [k1]; omega, ?_⟩
          rw [hprocs' a (by omega)]
          exact hown'
    · rw [k6, hsum, hsum_split, k1]
      have hmapeq : (List.range (s.count - 1)).map
          (fun a => owned_size
            ((proc_kill s).procs (live_slot (proc_kill s) a)))
          = (List.range (s.count - 1)).map
            (fun a => owned_size (s.procs (live_slot s (a + 1)))) := by
        apply List.map_congr_left
        intro a ha
        have ha' : a < s.count - 1 := List.mem_range.mp ha
        rw [hprocs' a (by omega)]
      rw [hmapeq]
      omega

/-- The reap loop of `_sal_proc_cycle` with fuel covering the live count
terminates with `allocated ≤ capacity`. -/
theorem reap_loop_spec : ∀ fuel s, queue_inv s → s.qcap ∣ u32Mod →
    s.count ≤ fuel → (reap_loop fuel s).allocCount ≤ s.memCap := by
  intro fuel
  induction fuel with
  | zero =>
    intro s hinv hdvd hc
    obtain ⟨hq, hcq, hshape, hlive, hzero, hblocks, hintd, hpair, hown,
      hsum⟩ := hinv
    have h0 : s.count = 0 := by omega
    rw [h0] at hsum
    simp at hsum
    show s.allocCount ≤ s.memCap
    omega
  | succ fuel ih =>
    intro s hinv hdvd hc
    simp only [reap_loop]
    by_cases hgt : s.allocCount > s.memCap
    · rw [if_pos hgt]
      have hcnt : 0 < s.count := by
        by_contra h0
        have hc0 : s.count = 0 := by omega
        have hsum := hinv.2.2.2.2.2.2.2.2.2
        rw [hc0] at hsum
        simp at hsum
        omega
      have hinv' := proc_kill_inv s hinv hcnt hdvd
      obtain ⟨k1, k2, k3, k4, k5, k6, k7, k8, k9, k10, k11⟩ :=
        proc_kill_spec s hinv hcnt hdvd
      have hdvd' : (proc_kill s).qcap ∣ u32Mod := by
        rw [k9]
        exact hdvd
      have hres := ih (proc_kill s) hinv' hdvd' (by rw [k1]; omega)
      rw [k10] at hres
      exact hres
    · rw [if_neg hgt]
      omega

/-- **C5.** The reap phase at the end of a process tick enforces
`allocated ≤ capacity`: on a coherent queue, the loop `while allocated >
capacity: proc_kill()` terminates with `allocated ≤ capacity`, and each
kill hits the process at index `first` (the oldest) — both of its memory
blocks are deallocated (the child block too, when one exists), its slot is
zeroed, the count is decremented, and `first` advances modulo capacity, or
`first = last = UINT32_MAX` when it was the only live process. -/
theorem tick_reap_enforces_allocated_le_capacity (s : Sim)
    (hinv : queue_inv s) (hdvd : s.qcap ∣ u32Mod) :
    (reap_loop s.count s).allocCount ≤ s.memCap
    ∧ (0 < s.count →
        (proc_kill s).count = s.count - 1
        ∧ (proc_kill s).procs s.first = zeroProc
        ∧ (∀ x, owns (s.procs s.first) x → (proc_kill s).alloc x = false)
        ∧ (∀ x, ¬ owns (s.procs s.first) x →
            (proc_kill s).alloc x = s.alloc x)
        ∧ (proc_kill s).allocCount
            = s.allocCount - owned_size (s.procs s.first)
        ∧ (s.count = 1 →
            (proc_kill s).first = UINT32_MAX
            ∧ (proc_kill s).last = UINT32_MAX)
        ∧ (1 < s.count →
            (proc_kill s).first = (s.first + 1) % s.qcap
            ∧ (proc_kill s).last = s.last)) := by
  refine ⟨reap_loop_spec s.count s hinv hdvd (Nat.le_refl _), ?_⟩
  intro hcnt
  obtain ⟨k1, k2, k3, k4, k5, k6, k7, k8, k9, k10, k11⟩ :=
    proc_kill_spec s hinv hcnt hdvd
  exact ⟨k1, k2, k4, k5, k6, k7, k8⟩

theorem tick_reap_enforces_allocated_le_capacity_witness :
    (reap_loop overCapSim.count overCapSim).allocCount ≤ overCapSim.memCap
    ∧ (proc_kill overCapSim).count = 1
    ∧ (proc_kill overCapSim).first = 1 := by
  obtain ⟨h1, h2⟩ := tick_reap_enforces_allocated_le_capacity overCapSim
    (by decide) (by decide)
  obtain ⟨k1, k2, k3, k4, k5, k6, k7⟩ := h2 (by decide)
  refine ⟨h1, ?_, ?_⟩
  · rw [k1]
    decide
  · exact (k7 (by decide)).1

end Salis
